import Mathlib

/- Shallow embedding of the resonator repository (src/resonator/nonlinear.py and
src/resonator/shunt.py).  Floating-point numpy arithmetic is modelled by exact
real arithmetic over ℝ and complex numpy values by ℂ.  numpy's power on complex
numbers is the principal branch, modelled by Complex.cpow; np.cbrt is the real
odd cube root.  Division is total in Lean (x / 0 = 0) whereas numpy emits
nan/inf warnings at the corresponding points; every theorem that touches such a
point discusses this next to its statement. -/

/- ---------- nonlinear.py : kerr_detuning ---------- -/

/-- np.cbrt: the real (odd) cube root, cbrt x = sign x * abs x ^ (1/3). -/
noncomputable def cbrt (x : ℝ) : ℝ :=
  if 0 ≤ x then x ^ ((1 : ℝ) / 3) else -((-x) ^ ((1 : ℝ) / 3))

/-- numpy's principal square root of a complex number (np.sqrt on a complex
array), z ^ (1/2) on the principal branch. -/
noncomputable def csqrt (z : ℂ) : ℂ := z ^ ((1 : ℂ) / 2)

/-- Cubic coefficient from kerr_detuning: b = -2 * detuning. -/
noncomputable def cubicB (detuning : ℝ) : ℝ := -2 * detuning

/-- Cubic coefficient from kerr_detuning:
c = ((coupling_loss + internal_loss) / 2) ** 2 + detuning ** 2. -/
noncomputable def cubicC (coupling_loss internal_loss detuning : ℝ) : ℝ :=
  ((coupling_loss + internal_loss) / 2) ^ 2 + detuning ^ 2

/-- Cubic coefficient from kerr_detuning: d = -KXin * coupling_loss. -/
noncomputable def cubicD (coupling_loss KXin : ℝ) : ℝ := -KXin * coupling_loss

/-- delta0 = b ** 2 - 3 * c. -/
noncomputable def delta0 (b c : ℝ) : ℝ := b ^ 2 - 3 * c

/-- delta1 = 2 * b ** 3 - 9 * b * c + 27 * d. -/
noncomputable def delta1 (b c d : ℝ) : ℝ := 2 * b ^ 3 - 9 * b * c + 27 * d

/-- delta = (4 * delta0 ** 3 - delta1 ** 2) / 27, the cubic discriminant. -/
noncomputable def disc (b c d : ℝ) : ℝ :=
  (4 * delta0 b c ^ 3 - delta1 b c d ^ 2) / 27

/-- One-real-root branch (delta < 0):
cc = np.cbrt((delta1 + np.sqrt(delta1 ** 2 - 4 * delta0 ** 3)) / 2). -/
noncomputable def oneRealCC (b c d : ℝ) : ℝ :=
  cbrt ((delta1 b c d + Real.sqrt (delta1 b c d ^ 2 - 4 * delta0 b c ^ 3)) / 2)

/-- One-real-root branch: np.real(-(b + cc + delta0 / cc) / 3); the argument is
already real so np.real is the identity. -/
noncomputable def oneRealRoot (b c d : ℝ) : ℝ :=
  -(b + oneRealCC b c d + delta0 b c / oneRealCC b c d) / 3

/-- Double root of the delta = 0, delta0 ≠ 0 branch:
(9 * d - b * c) / (2 * delta0). -/
noncomputable def doubleRoot (b c d : ℝ) : ℝ :=
  (9 * d - b * c) / (2 * delta0 b c)

/-- Simple root of the delta = 0, delta0 ≠ 0 branch:
(4 * b * c - 9 * d - b ** 3) / delta0. -/
noncomputable def simpleRoot (b c d : ℝ) : ℝ :=
  (4 * b * c - 9 * d - b ^ 3) / delta0 b c

/-- The complex radicand of the delta > 0 branch,
(delta1 + np.sqrt((delta1 ** 2 - 4 * delta0 ** 3).astype(complex))) / 2. -/
noncomputable def threeZ (b c d : ℝ) : ℂ :=
  ((delta1 b c d : ℂ) + csqrt ((delta1 b c d ^ 2 - 4 * delta0 b c ^ 3 : ℝ) : ℂ)) / 2

/-- The principal complex cube root used in the delta > 0 branch,
cc_three_distinct_real = threeZ ** (1 / 3). -/
noncomputable def threeCC (b c d : ℝ) : ℂ := threeZ b c d ^ ((1 : ℂ) / 3)

/-- xi = (-1 + 1j * np.sqrt(3)) / 2, a primitive cube root of unity. -/
noncomputable def xi : ℂ := (-1 + Complex.I * (Real.sqrt 3 : ℝ)) / 2

/-- x0 = np.real(-1 / 3 * (b + cc + delta0 / cc)). -/
noncomputable def threeRoot0 (b c d : ℝ) : ℝ :=
  (-(1 / 3) * ((b : ℂ) + threeCC b c d + (delta0 b c : ℝ) / threeCC b c d)).re

/-- x1 = np.real(-1 / 3 * (b + xi * cc + delta0 / (xi * cc))). -/
noncomputable def threeRoot1 (b c d : ℝ) : ℝ :=
  (-(1 / 3) * ((b : ℂ) + xi * threeCC b c d + (delta0 b c : ℝ) / (xi * threeCC b c d))).re

/-- x2 = np.real(-1 / 3 * (b + xi ** 2 * cc + delta0 / (xi ** 2 * cc))). -/
noncomputable def threeRoot2 (b c d : ℝ) : ℝ :=
  (-(1 / 3) * ((b : ℂ) + xi ^ 2 * threeCC b c d + (delta0 b c : ℝ) / (xi ^ 2 * threeCC b c d))).re

/-- Per-point model of choose = np.min along the stacking axis: the elementwise
minimum of the stacked candidate roots at one point is the minimum of the list
of candidates at that point. -/
noncomputable def chooseMin : List ℝ → ℝ
  | [] => 0
  | [x] => x
  | x :: y :: ys => min x (chooseMin (y :: ys))

/-- Per-point model of choose = np.max along the stacking axis. -/
noncomputable def chooseMax : List ℝ → ℝ
  | [] => 0
  | [x] => x
  | x :: y :: ys => max x (chooseMax (y :: ys))

/-- Per-point computation of kerr_detuning (src/resonator/nonlinear.py).  The
three boolean masks delta > 0 / delta == 0 / delta < 0 partition the points, so
the vectorized assignment computes exactly this value at each point; choose is
called per point on the stacked candidate list (np.min / np.max with axis=0 act
elementwise). -/
noncomputable def kerrDetuningPoint (choose : List ℝ → ℝ)
    (detuning coupling_loss internal_loss KXin : ℝ) : ℝ :=
  if disc (cubicB detuning) (cubicC coupling_loss internal_loss detuning)
      (cubicD coupling_loss KXin) < 0 then
    oneRealRoot (cubicB detuning) (cubicC coupling_loss internal_loss detuning)
      (cubicD coupling_loss KXin)
  else if disc (cubicB detuning) (cubicC coupling_loss internal_loss detuning)
      (cubicD coupling_loss KXin) = 0 then
    if delta0 (cubicB detuning) (cubicC coupling_loss internal_loss detuning) = 0 then
      -(cubicB detuning) / 3
    else
      choose [doubleRoot (cubicB detuning) (cubicC coupling_loss internal_loss detuning)
                (cubicD coupling_loss KXin),
              simpleRoot (cubicB detuning) (cubicC coupling_loss internal_loss detuning)
                (cubicD coupling_loss KXin)]
  else
    choose [threeRoot0 (cubicB detuning) (cubicC coupling_loss internal_loss detuning)
              (cubicD coupling_loss KXin),
            threeRoot1 (cubicB detuning) (cubicC coupling_loss internal_loss detuning)
              (cubicD coupling_loss KXin),
            threeRoot2 (cubicB detuning) (cubicC coupling_loss internal_loss detuning)
              (cubicD coupling_loss KXin)]

/-- The possible shapes of the detuning argument of kerr_detuning: a Python
scalar, a zero-dimensional numpy array, or a one-dimensional numpy array. -/
inductive NpArray where
  | scalar (x : ℝ)
  | zerodim (x : ℝ)
  | onedim (xs : List ℝ)

/-- The numpy shape tuple of a value: () for scalars and zero-dimensional
arrays, (n,) for one-dimensional arrays. -/
def npShape : NpArray → List ℕ
  | .scalar _ => []
  | .zerodim _ => []
  | .onedim xs => [xs.length]

/-- kerr_detuning with its shape handling, modelled with explicit state passing
for the mutable detuning argument: the result is (return value, state of the
caller's detuning argument after the call).  A scalar input is rebound locally
to np.array([detuning]) (the caller's value is unchanged); a zero-dimensional
array has its shape reassigned in place to (1,) (the caller's array is mutated
and never restored); a one-dimensional array is only read.  For scalar and
zero-dimensional inputs the function returns roots[0], a numpy scalar. -/
noncomputable def kerr_detuning (choose : List ℝ → ℝ) (detuning : NpArray)
    (coupling_loss internal_loss KXin : ℝ) : NpArray × NpArray :=
  match detuning with
  | .scalar x =>
      (.scalar (kerrDetuningPoint choose x coupling_loss internal_loss KXin), .scalar x)
  | .zerodim x =>
      (.scalar (kerrDetuningPoint choose x coupling_loss internal_loss KXin), .onedim [x])
  | .onedim xs =>
      (.onedim (xs.map fun x => kerrDetuningPoint choose x coupling_loss internal_loss KXin),
       .onedim xs)

/-- kerr_detuning_at_bifurcation(coupling_loss, internal_loss) =
3 ** (-3 / 2) * (internal_loss + coupling_loss) ** 3 / coupling_loss. -/
noncomputable def kerr_detuning_at_bifurcation (coupling_loss internal_loss : ℝ) : ℝ :=
  (3 : ℝ) ^ ((-3 : ℝ) / 2) * (internal_loss + coupling_loss) ^ 3 / coupling_loss

/-- Evaluation of the monic cubic y ** 3 + b * y ** 2 + c * y + d. -/
noncomputable def cubicEval (b c d y : ℝ) : ℝ := y ^ 3 + b * y ^ 2 + c * y + d

/- ---------- shunt.py : models and fitters ---------- -/

/-- The linear shunt model (Shunt.shunt in src/resonator/shunt.py):
detuning = frequency / resonance_frequency - 1
1 - (1 + 1j * asymmetry) / (1 + (internal_loss + 2j * detuning) / coupling_loss). -/
noncomputable def shunt (frequency resonance_frequency internal_loss coupling_loss
    asymmetry : ℝ) : ℂ :=
  1 - (1 + Complex.I * (asymmetry : ℝ)) /
    (1 + ((internal_loss : ℝ) +
      2 * Complex.I * ((frequency / resonance_frequency - 1 : ℝ) : ℂ)) / (coupling_loss : ℝ))

/-- The nonlinear shunt model (ShuntNonlinear.shunt_nonlinear): the same form
with detuning - kerr_detuning substituted for detuning inside the bracket. -/
noncomputable def shunt_nonlinear (choose : List ℝ → ℝ)
    (frequency resonance_frequency internal_loss coupling_loss asymmetry KXin : ℝ) : ℂ :=
  1 - (1 + Complex.I * (asymmetry : ℝ)) /
    (1 + ((internal_loss : ℝ) +
      2 * Complex.I * ((frequency / resonance_frequency - 1 -
        kerrDetuningPoint choose (frequency / resonance_frequency - 1)
          coupling_loss internal_loss KXin : ℝ) : ℂ)) / (coupling_loss : ℝ))

/-- ShuntFitter.invert: z = coupling_loss * ((1 + 1j * asymmetry) /
(1 - scattering_data) - 1); returns (detuning, internal_loss) = (z.imag / 2,
z.real).  self.coupling_loss and self.asymmetry are the fitted parameter
values, passed here explicitly. -/
noncomputable def ShuntFitter.invert (coupling_loss asymmetry : ℝ)
    (scattering_data : ℂ) : ℝ × ℝ :=
  (((coupling_loss : ℂ) * ((1 + Complex.I * (asymmetry : ℝ)) / (1 - scattering_data) - 1)).im / 2,
   ((coupling_loss : ℂ) * ((1 + Complex.I * (asymmetry : ℝ)) / (1 - scattering_data) - 1)).re)

/-- ShuntNonlinearFitter.invert: the body is a bare pass, so the call silently
returns None.  The Python None return is modelled as Option.none; an
implementation that raised NotImplementedError would instead be modelled with
an error value. -/
def ShuntNonlinearFitter.invert (scattering_data : ℂ) : Option (ℝ × ℝ) := none

/- ---------- shunt.py : guess_smooth ---------- -/

/-- np.linspace(start, stop, num) with endpoint=True: num equally spaced
points; a single point is just [start]. -/
noncomputable def linspace (start stop : ℝ) (num : ℕ) : List ℝ :=
  if num = 0 then []
  else if num = 1 then [start]
  else (List.range num).map fun i => start + i * ((stop - start) / (num - 1))

/-- np.convolve(a, v) in full mode: output length a.length + v.length - 1 with
entry k equal to the sum over j of a[j] * v[k - j]; indices outside the input
ranges contribute 0 (zero padding). -/
noncomputable def npConvolveFull (a v : List ℝ) : List ℝ :=
  (List.range (a.length + v.length - 1)).map fun k =>
    ∑ j in Finset.range a.length,
      if j ≤ k then a.getD j 0 * v.getD (k - j) 0 else 0

/-- np.convolve(a, v, mode='same'): the centred max(a.length, v.length)
entries of the full convolution, starting at (min(a.length, v.length) - 1)/2. -/
noncomputable def npConvolveSame (a v : List ℝ) : List ℝ :=
  ((npConvolveFull a v).drop ((min a.length v.length - 1) / 2)).take
    (max a.length v.length)

/-- Helper for np.argmin: walk the list keeping the first index of the least
value seen so far. -/
noncomputable def npArgminAux (best : ℝ) (bestIdx cur : ℕ) : List ℝ → ℕ
  | [] => bestIdx
  | x :: xs =>
      if x < best then npArgminAux x cur (cur + 1) xs
      else npArgminAux best bestIdx (cur + 1) xs

/-- np.argmin: index of the first occurrence of the minimum value. -/
noncomputable def npArgmin : List ℝ → ℕ
  | [] => 0
  | x :: xs => npArgminAux x 0 1 xs

/-- Helper for np.argmax: walk the list keeping the first index of the greatest
value seen so far. -/
noncomputable def npArgmaxAux (best : ℝ) (bestIdx cur : ℕ) : List ℝ → ℕ
  | [] => bestIdx
  | x :: xs =>
      if best < x then npArgmaxAux x cur (cur + 1) xs
      else npArgmaxAux best bestIdx (cur + 1) xs

/-- np.argmax: index of the first occurrence of the maximum value. -/
noncomputable def npArgmax : List ℝ → ℕ
  | [] => 0
  | x :: xs => npArgmaxAux x 0 1 xs

/-- np.min of an array (the minimum value; numpy raises on an empty array, the
model returns 0 there). -/
noncomputable def npMin : List ℝ → ℝ
  | [] => 0
  | x :: xs => xs.foldl min x

/-- np.abs(data) for the complex data array of guess_smooth. -/
noncomputable def absData (data : List ℂ) : List ℝ := data.map Complex.abs

/-- resonance_frequency = frequency[np.argmin(np.abs(data))]. -/
noncomputable def guessResonance (frequency : List ℝ) (data : List ℂ) : ℝ :=
  frequency.getD (npArgmin (absData data)) 0

/-- The smoothing kernel of guess_smooth: width = frequency.size // 10,
gaussian = np.exp(-np.linspace(-4, 4, width) ** 2) normalized by its sum. -/
noncomputable def guessGaussian (frequency : List ℝ) : List ℝ :=
  let width := frequency.length / 10
  let gaussian0 := (linspace (-4) 4 width).map fun t => Real.exp (-t ^ 2)
  gaussian0.map fun g => g / gaussian0.sum

/-- The linewidth estimate of guess_smooth:
smoothed = np.convolve(gaussian, np.abs(data), mode='same'),
derivative = np.convolve([1, -1], smoothed, mode='same'),
linewidth = frequency[np.argmax(derivative[width:-width])]
          - frequency[np.argmin(derivative[width:-width])].
Note that the code indexes the full frequency array with indices that are
relative to the slice derivative[width:-width]; the model reproduces this. -/
noncomputable def guessLinewidth (frequency : List ℝ) (data : List ℂ) : ℝ :=
  let width := frequency.length / 10
  let smoothed := npConvolveSame (guessGaussian frequency) (absData data)
  let derivative := npConvolveSame [1, -1] smoothed
  let sliced := (derivative.drop width).take (derivative.length - 2 * width)
  frequency.getD (npArgmax sliced) 0 - frequency.getD (npArgmin sliced) 0

/-- guess_smooth (src/resonator/shunt.py): returns
(resonance_frequency, coupling_loss, internal_loss) with
internal_plus_coupling = linewidth / resonance_frequency,
internal_over_coupling = 1 / (1 / np.min(np.abs(data)) - 1),
coupling_loss = internal_plus_coupling / (1 + internal_over_coupling),
internal_loss = internal_plus_coupling * internal_over_coupling
                / (1 + internal_over_coupling). -/
noncomputable def guess_smooth (frequency : List ℝ) (data : List ℂ) : ℝ × ℝ × ℝ :=
  let resonance_frequency := guessResonance frequency data
  let internal_plus_coupling := guessLinewidth frequency data / resonance_frequency
  let internal_over_coupling := 1 / (1 / npMin (absData data) - 1)
  (resonance_frequency,
   internal_plus_coupling / (1 + internal_over_coupling),
   internal_plus_coupling * internal_over_coupling / (1 + internal_over_coupling))

/- ---------- helper lemmas: cube roots ---------- -/

lemma cbrt_cube (x : ℝ) : cbrt x ^ 3 = x := by
  unfold cbrt
  split_ifs with h
  · rw [← Real.rpow_natCast (x ^ ((1 : ℝ) / 3)) 3, ← Real.rpow_mul h]
    norm_num
  · push_neg at h
    have h0 : (0 : ℝ) ≤ -x := by linarith
    have : ((-x) ^ ((1 : ℝ) / 3)) ^ (3 : ℕ) = -x := by
      rw [← Real.rpow_natCast ((-x) ^ ((1 : ℝ) / 3)) 3, ← Real.rpow_mul h0]
      norm_num
    calc (-((-x) ^ ((1 : ℝ) / 3))) ^ 3 = -(((-x) ^ ((1 : ℝ) / 3)) ^ (3 : ℕ)) := by ring
    _ = x := by rw [this]; ring

lemma cbrt_eq_zero_iff (x : ℝ) : cbrt x = 0 ↔ x = 0 := by
  constructor
  · intro h
    have := cbrt_cube x
    rw [h] at this
    simpa using this.symm
  · intro h
    subst h
    unfold cbrt
    rw [if_pos le_rfl, Real.zero_rpow (by norm_num)]

lemma cpow_third_cube (z : ℂ) : (z ^ ((1 : ℂ) / 3)) ^ (3 : ℕ) = z := by
  have h3 : ((1 : ℂ) / 3) = (((3 : ℕ) : ℂ))⁻¹ := by norm_num
  rw [h3]
  exact Complex.cpow_nat_inv_pow z (by norm_num)

/- ---------- helper lemmas: the Cardano substitution ---------- -/

/-- If u * v = b ^ 2 - 3 * c and u ^ 3 + v ^ 3 = 2 * b ^ 3 - 9 * b * c + 27 * d
then -(b + u + v) / 3 is a root of the monic cubic with coefficients b, c, d.
This is the algebraic core of all three branches of kerr_detuning. -/
lemma cardanoRoot {K : Type} [Field K] [CharZero K] (b c d u v : K)
    (huv : u * v = b ^ 2 - 3 * c)
    (hsum : u ^ 3 + v ^ 3 = 2 * b ^ 3 - 9 * b * c + 27 * d) :
    (-(b + u + v) / 3) ^ 3 + b * (-(b + u + v) / 3) ^ 2 + c * (-(b + u + v) / 3) + d = 0 := by
  field_simp
  linear_combination (-81 * (u + v)) * huv - 27 * hsum

/- ---------- helper lemmas: branch selection in kerrDetuningPoint ---------- -/

lemma kerrPoint_eq_oneReal (choose : List ℝ → ℝ) (x cl il K : ℝ)
    (h : disc (cubicB x) (cubicC cl il x) (cubicD cl K) < 0) :
    kerrDetuningPoint choose x cl il K
      = oneRealRoot (cubicB x) (cubicC cl il x) (cubicD cl K) := by
  unfold kerrDetuningPoint
  rw [if_pos h]

lemma kerrPoint_eq_triple (choose : List ℝ → ℝ) (x cl il K : ℝ)
    (h : disc (cubicB x) (cubicC cl il x) (cubicD cl K) = 0)
    (hδ : delta0 (cubicB x) (cubicC cl il x) = 0) :
    kerrDetuningPoint choose x cl il K = -(cubicB x) / 3 := by
  unfold kerrDetuningPoint
  rw [if_neg (by rw [h]; exact lt_irrefl 0), if_pos h, if_pos hδ]

lemma kerrPoint_eq_double (choose : List ℝ → ℝ) (x cl il K : ℝ)
    (h : disc (cubicB x) (cubicC cl il x) (cubicD cl K) = 0)
    (hδ : delta0 (cubicB x) (cubicC cl il x) ≠ 0) :
    kerrDetuningPoint choose x cl il K
      = choose [doubleRoot (cubicB x) (cubicC cl il x) (cubicD cl K),
                simpleRoot (cubicB x) (cubicC cl il x) (cubicD cl K)] := by
  unfold kerrDetuningPoint
  rw [if_neg (by rw [h]; exact lt_irrefl 0), if_pos h, if_neg hδ]

lemma kerrPoint_eq_three (choose : List ℝ → ℝ) (x cl il K : ℝ)
    (h : 0 < disc (cubicB x) (cubicC cl il x) (cubicD cl K)) :
    kerrDetuningPoint choose x cl il K
      = choose [threeRoot0 (cubicB x) (cubicC cl il x) (cubicD cl K),
                threeRoot1 (cubicB x) (cubicC cl il x) (cubicD cl K),
                threeRoot2 (cubicB x) (cubicC cl il x) (cubicD cl K)] := by
  unfold kerrDetuningPoint
  rw [if_neg (not_lt.mpr h.le), if_neg (ne_of_gt h)]

/- ---------- the delta < 0 branch ---------- -/

lemma oneRealRoot_isRoot (b c d : ℝ) (hΔ : disc b c d < 0)
    (hdeg : ¬(delta0 b c = 0 ∧ delta1 b c d < 0)) :
    cubicEval b c d (oneRealRoot b c d) = 0 := by
  have h27 : 0 < delta1 b c d ^ 2 - 4 * delta0 b c ^ 3 := by
    unfold disc at hΔ; linarith
  set s := Real.sqrt (delta1 b c d ^ 2 - 4 * delta0 b c ^ 3) with hs_def
  have hs2 : s ^ 2 = delta1 b c d ^ 2 - 4 * delta0 b c ^ 3 := Real.sq_sqrt h27.le
  have hs_pos : 0 < s := Real.sqrt_pos.mpr h27
  have hM : (delta1 b c d + s) / 2 ≠ 0 := by
    intro h0
    have hδ1s : delta1 b c d = -s := by linarith
    have hδ03 : delta0 b c ^ 3 = 0 := by nlinarith
    have hδ0 : delta0 b c = 0 := by
      exact pow_eq_zero_iff (by norm_num) |>.mp hδ03
    exact hdeg ⟨hδ0, by rw [hδ1s]; linarith⟩
  have hcc3 : oneRealCC b c d ^ 3 = (delta1 b c d + s) / 2 := by
    unfold oneRealCC
    rw [← hs_def]
    exact cbrt_cube _
  have hccne : oneRealCC b c d ≠ 0 := by
    intro h0
    apply hM
    rw [← hcc3, h0]
    ring
  have hv3 : (delta0 b c / oneRealCC b c d) ^ 3 = (delta1 b c d - s) / 2 := by
    rw [div_pow, hcc3, div_eq_div_iff hM (by norm_num : (2 : ℝ) ≠ 0)]
    linear_combination (1 / 2) * hs2
  have huv : oneRealCC b c d * (delta0 b c / oneRealCC b c d) = b ^ 2 - 3 * c := by
    rw [mul_div_cancel₀ _ hccne]
    unfold delta0
    ring
  have hsum : oneRealCC b c d ^ 3 + (delta0 b c / oneRealCC b c d) ^ 3
      = 2 * b ^ 3 - 9 * b * c + 27 * d := by
    rw [hcc3, hv3]
    unfold delta1
    ring
  have h := cardanoRoot b c d (oneRealCC b c d) (delta0 b c / oneRealCC b c d) huv hsum
  unfold cubicEval oneRealRoot
  convert h using 2

/- ---------- the delta = 0 branches ---------- -/

lemma disc_zero_numerator (b c d : ℝ) (h0 : disc b c d = 0) :
    delta1 b c d ^ 2 = 4 * delta0 b c ^ 3 := by
  unfold disc at h0
  rcases div_eq_zero_iff.mp h0 with h | h
  · linarith
  · norm_num at h

lemma tripleRoot_isRoot (b c d : ℝ) (h0 : disc b c d = 0)
    (hδ : delta0 b c = 0) :
    cubicEval b c d (-b / 3) = 0 := by
  have hsq := disc_zero_numerator b c d h0
  rw [hδ] at hsq
  have h1 : delta1 b c d = 0 := by
    have : delta1 b c d ^ 2 = 0 := by linarith [hsq]
    exact pow_eq_zero_iff (by norm_num) |>.mp this
  unfold delta1 at h1
  unfold cubicEval
  linear_combination (1 / 27) * h1

/-- With e a square root of delta0 satisfying 2 e ^ 3 = delta1, the point
(e - b) / 3 is the double root of the degenerate cubic. -/
lemma cardano_double (b c d e : ℝ) (he2 : e ^ 2 = b ^ 2 - 3 * c)
    (h27d : 27 * d = 2 * e ^ 3 - 2 * b ^ 3 + 9 * b * c) :
    cubicEval b c d ((e - b) / 3) = 0 := by
  unfold cubicEval
  linear_combination (e / 9) * he2 + (1 / 27) * h27d

/-- With e as above, -(b + 2 e) / 3 is the simple root of the degenerate
cubic. -/
lemma cardano_simple (b c d e : ℝ) (he2 : e ^ 2 = b ^ 2 - 3 * c)
    (h27d : 27 * d = 2 * e ^ 3 - 2 * b ^ 3 + 9 * b * c) :
    cubicEval b c d (-(b + 2 * e) / 3) = 0 := by
  unfold cubicEval
  linear_combination (-2 * e / 9) * he2 + (1 / 27) * h27d

lemma delta0_pos_of_disc_zero (b c d : ℝ) (h0 : disc b c d = 0)
    (hδ : delta0 b c ≠ 0) : 0 < delta0 b c := by
  have hsq := disc_zero_numerator b c d h0
  rcases lt_trichotomy (delta0 b c) 0 with h | h | h
  · nlinarith [sq_nonneg (delta1 b c d), hsq, pow_pos (neg_pos.mpr h) 3]
  · exact absurd h hδ
  · exact h

lemma delta1_ne_zero_of_disc_zero (b c d : ℝ) (h0 : disc b c d = 0)
    (hδ : delta0 b c ≠ 0) : delta1 b c d ≠ 0 := by
  have hsq := disc_zero_numerator b c d h0
  intro h1
  apply hδ
  have : delta0 b c ^ 3 = 0 := by rw [h1] at hsq; nlinarith [hsq]
  exact pow_eq_zero_iff (by norm_num) |>.mp this

lemma he2_of_disc_zero (b c d : ℝ) (h0 : disc b c d = 0) (hδ : delta0 b c ≠ 0) :
    (delta1 b c d / (2 * delta0 b c)) ^ 2 = b ^ 2 - 3 * c := by
  have hsq := disc_zero_numerator b c d h0
  have h2δ : (2 : ℝ) * delta0 b c ≠ 0 := by
    intro h; apply hδ; linarith
  rw [div_pow, div_eq_iff (pow_ne_zero 2 h2δ)]
  unfold delta0 at hsq ⊢
  linear_combination hsq

lemma h27d_of_disc_zero (b c d : ℝ) (h0 : disc b c d = 0) (hδ : delta0 b c ≠ 0) :
    27 * d = 2 * (delta1 b c d / (2 * delta0 b c)) ^ 3 - 2 * b ^ 3 + 9 * b * c := by
  have hsq := disc_zero_numerator b c d h0
  have h2δ : (2 : ℝ) * delta0 b c ≠ 0 := by
    intro h; apply hδ; linarith
  have he3 : 2 * (delta1 b c d / (2 * delta0 b c)) ^ 3 = delta1 b c d := by
    rw [div_pow, ← mul_div_assoc, div_eq_iff (pow_ne_zero 3 h2δ)]
    unfold delta0 at hsq ⊢
    linear_combination 2 * delta1 b c d * hsq
  rw [he3]
  unfold delta1
  ring

lemma doubleRoot_eq (b c d : ℝ) (hδ : delta0 b c ≠ 0) :
    doubleRoot b c d = (delta1 b c d / (2 * delta0 b c) - b) / 3 := by
  unfold doubleRoot delta1
  have h2δ : (2 : ℝ) * delta0 b c ≠ 0 := by
    intro h; apply hδ; linarith
  rw [div_sub' _ _ _ h2δ, div_div]
  rw [div_eq_div_iff (by exact mul_ne_zero (by norm_num) hδ) (by
    intro h
    rcases mul_eq_zero.mp h with h | h
    · exact h2δ h
    · norm_num at h)]
  unfold delta0
  ring

lemma simpleRoot_eq (b c d : ℝ) (hδ : delta0 b c ≠ 0) :
    simpleRoot b c d = -(b + 2 * (delta1 b c d / (2 * delta0 b c))) / 3 := by
  unfold simpleRoot delta1
  have h2δ : (2 : ℝ) * delta0 b c ≠ 0 := by
    intro h; apply hδ; linarith
  field_simp
  unfold delta0
  ring

lemma doubleRoot_isRoot (b c d : ℝ) (h0 : disc b c d = 0)
    (hδ : delta0 b c ≠ 0) : cubicEval b c d (doubleRoot b c d) = 0 := by
  rw [doubleRoot_eq b c d hδ]
  exact cardano_double b c d _ (he2_of_disc_zero b c d h0 hδ) (h27d_of_disc_zero b c d h0 hδ)

lemma simpleRoot_isRoot (b c d : ℝ) (h0 : disc b c d = 0)
    (hδ : delta0 b c ≠ 0) : cubicEval b c d (simpleRoot b c d) = 0 := by
  rw [simpleRoot_eq b c d hδ]
  exact cardano_simple b c d _ (he2_of_disc_zero b c d h0 hδ) (h27d_of_disc_zero b c d h0 hδ)

lemma doubleRoot_ne_simpleRoot (b c d : ℝ) (h0 : disc b c d = 0)
    (hδ : delta0 b c ≠ 0) : doubleRoot b c d ≠ simpleRoot b c d := by
  rw [doubleRoot_eq b c d hδ, simpleRoot_eq b c d hδ]
  intro h
  have he : delta1 b c d / (2 * delta0 b c) = 0 := by linarith [h]
  rcases div_eq_zero_iff.mp he with h1 | h1
  · exact delta1_ne_zero_of_disc_zero b c d h0 hδ h1
  · apply hδ; linarith

/- ---------- the delta > 0 branch ---------- -/

lemma disc_pos_numerator (b c d : ℝ) (h : 0 < disc b c d) :
    0 < 4 * delta0 b c ^ 3 - delta1 b c d ^ 2 := by
  unfold disc at h
  linarith

/-- numpy's principal square root of a negative real (cast to complex) is
i times the real square root of its negation. -/
lemma csqrt_of_neg {x : ℝ} (hx : x < 0) :
    csqrt ((x : ℝ) : ℂ) = Complex.I * ((Real.sqrt (-x) : ℝ) : ℂ) := by
  unfold csqrt
  rw [Complex.ofReal_cpow_of_nonpos hx.le]
  have h1 : ((-x : ℝ) : ℂ) ^ ((1 : ℂ) / 2) = ((Real.sqrt (-x) : ℝ) : ℂ) := by
    have h0 : (0 : ℝ) ≤ -x := by linarith
    have h2 := Complex.ofReal_cpow h0 (1 / 2)
    rw [← Real.sqrt_eq_rpow] at h2
    rw [show ((1 : ℂ) / 2) = (((1 / 2 : ℝ)) : ℂ) by push_cast; norm_num]
    exact h2.symm
  have h2 : Complex.exp ((Real.pi : ℂ) * Complex.I * ((1 : ℂ) / 2)) = Complex.I := by
    have h3 : (Real.pi : ℂ) * Complex.I * ((1 : ℂ) / 2)
        = ((Real.pi / 2 : ℝ) : ℂ) * Complex.I := by
      push_cast
      ring
    rw [h3, Complex.exp_mul_I, ← Complex.ofReal_cos, ← Complex.ofReal_sin,
      Real.cos_pi_div_two, Real.sin_pi_div_two]
    simp
  rw [← Complex.ofReal_neg, h1, h2]
  ring

lemma threeZ_eq (b c d : ℝ) (h : 0 < 4 * delta0 b c ^ 3 - delta1 b c d ^ 2) :
    threeZ b c d = ((delta1 b c d : ℂ)
      + Complex.I * ((Real.sqrt (4 * delta0 b c ^ 3 - delta1 b c d ^ 2) : ℝ) : ℂ)) / 2 := by
  unfold threeZ
  rw [csqrt_of_neg (by linarith : (delta1 b c d ^ 2 - 4 * delta0 b c ^ 3 : ℝ) < 0), neg_sub]

lemma threeZ_re (b c d : ℝ) (h : 0 < 4 * delta0 b c ^ 3 - delta1 b c d ^ 2) :
    (threeZ b c d).re = delta1 b c d / 2 := by
  rw [threeZ_eq b c d h]
  simp [Complex.div_re, Complex.normSq_apply]

lemma threeZ_im (b c d : ℝ) (h : 0 < 4 * delta0 b c ^ 3 - delta1 b c d ^ 2) :
    (threeZ b c d).im = Real.sqrt (4 * delta0 b c ^ 3 - delta1 b c d ^ 2) / 2 := by
  rw [threeZ_eq b c d h]
  simp [Complex.div_im, Complex.normSq_apply]

lemma threeZ_ne_zero (b c d : ℝ) (h : 0 < 4 * delta0 b c ^ 3 - delta1 b c d ^ 2) :
    threeZ b c d ≠ 0 := by
  intro h0
  have him := congrArg Complex.im h0
  rw [threeZ_im b c d h] at him
  simp at him
  have := Real.sqrt_pos.mpr h
  linarith

lemma normSq_threeZ (b c d : ℝ) (h : 0 < 4 * delta0 b c ^ 3 - delta1 b c d ^ 2) :
    Complex.normSq (threeZ b c d) = delta0 b c ^ 3 := by
  rw [Complex.normSq_apply, threeZ_re b c d h, threeZ_im b c d h]
  have hs2 : Real.sqrt (4 * delta0 b c ^ 3 - delta1 b c d ^ 2) ^ 2
      = 4 * delta0 b c ^ 3 - delta1 b c d ^ 2 := Real.sq_sqrt h.le
  linear_combination (1 / 4) * hs2

lemma delta0_pos_of_num_pos (b c d : ℝ)
    (h : 0 < 4 * delta0 b c ^ 3 - delta1 b c d ^ 2) : 0 < delta0 b c := by
  rcases lt_trichotomy (delta0 b c) 0 with hlt | heq | hgt
  · nlinarith [sq_nonneg (delta1 b c d), pow_pos (neg_pos.mpr hlt) 3]
  · rw [heq] at h
    nlinarith [sq_nonneg (delta1 b c d)]
  · exact hgt

lemma threeCC_cubed (b c d : ℝ) : threeCC b c d ^ (3 : ℕ) = threeZ b c d :=
  cpow_third_cube (threeZ b c d)

lemma threeCC_ne_zero (b c d : ℝ) (h : 0 < 4 * delta0 b c ^ 3 - delta1 b c d ^ 2) :
    threeCC b c d ≠ 0 := by
  intro h0
  apply threeZ_ne_zero b c d h
  rw [← threeCC_cubed b c d, h0]
  ring

lemma normSq_threeCC (b c d : ℝ) (h : 0 < 4 * delta0 b c ^ 3 - delta1 b c d ^ 2) :
    Complex.normSq (threeCC b c d) = delta0 b c := by
  have h3 : Complex.normSq (threeCC b c d) ^ (3 : ℕ) = delta0 b c ^ (3 : ℕ) := by
    rw [← map_pow, threeCC_cubed b c d, normSq_threeZ b c d h]
  exact pow_left_inj₀ (Complex.normSq_nonneg _) (delta0_pos_of_num_pos b c d h).le
    (by norm_num) |>.mp h3

/- ---------- the primitive cube root of unity ---------- -/

lemma sqrt3_sq_complex : ((Real.sqrt 3 : ℝ) : ℂ) ^ 2 = 3 := by
  rw [← Complex.ofReal_pow, Real.sq_sqrt (by norm_num : (0 : ℝ) ≤ 3)]
  norm_num

lemma xi_cubed : xi ^ 3 = 1 := by
  unfold xi
  rw [div_pow, div_eq_one_iff_eq (by norm_num : ((2 : ℂ)) ^ 3 ≠ 0)]
  linear_combination (Complex.I * ((Real.sqrt 3 : ℝ) : ℂ) ^ 3
      - 3 * ((Real.sqrt 3 : ℝ) : ℂ) ^ 2) * Complex.I_sq
    + (3 - Complex.I * ((Real.sqrt 3 : ℝ) : ℂ)) * sqrt3_sq_complex

lemma xi_ne_zero : xi ≠ 0 := by
  intro h
  have := xi_cubed
  rw [h] at this
  simp at this

lemma xi_re : xi.re = -(1 / 2) := by
  unfold xi
  simp [Complex.div_re, Complex.normSq_apply]
  norm_num

lemma xi_im : xi.im = Real.sqrt 3 / 2 := by
  unfold xi
  simp [Complex.div_im, Complex.normSq_apply]

lemma normSq_xi : Complex.normSq xi = 1 := by
  rw [Complex.normSq_apply, xi_re, xi_im]
  have h3 : Real.sqrt 3 ^ 2 = 3 := Real.sq_sqrt (by norm_num)
  nlinarith [h3]

lemma xisq_re : (xi ^ 2).re = -(1 / 2) := by
  rw [pow_two, Complex.mul_re, xi_re, xi_im]
  have h3 : Real.sqrt 3 ^ 2 = 3 := Real.sq_sqrt (by norm_num)
  nlinarith [h3]

lemma xisq_im : (xi ^ 2).im = -(Real.sqrt 3 / 2) := by
  rw [pow_two, Complex.mul_im, xi_re, xi_im]
  ring

/-- Uniform form of the three candidate roots of the delta > 0 branch;
xi ^ 0 = 1 recovers x0, and k = 1, 2 give x1, x2. -/
noncomputable def threeRootAux (k : ℕ) (b c d : ℝ) : ℝ :=
  (-(1 / 3) * ((b : ℂ) + xi ^ k * threeCC b c d
    + (delta0 b c : ℝ) / (xi ^ k * threeCC b c d))).re

lemma threeRoot0_eq_aux (b c d : ℝ) : threeRoot0 b c d = threeRootAux 0 b c d := by
  unfold threeRoot0 threeRootAux
  rw [pow_zero, one_mul]

lemma threeRoot1_eq_aux (b c d : ℝ) : threeRoot1 b c d = threeRootAux 1 b c d := by
  unfold threeRoot1 threeRootAux
  rw [pow_one]

lemma threeRoot2_eq_aux (b c d : ℝ) : threeRoot2 b c d = threeRootAux 2 b c d := rfl

lemma xik_cc_ne_zero (b c d : ℝ) (h : 0 < 4 * delta0 b c ^ 3 - delta1 b c d ^ 2)
    (k : ℕ) : xi ^ k * threeCC b c d ≠ 0 :=
  mul_ne_zero (pow_ne_zero k xi_ne_zero) (threeCC_ne_zero b c d h)

lemma normSq_xik_cc (b c d : ℝ) (h : 0 < 4 * delta0 b c ^ 3 - delta1 b c d ^ 2)
    (k : ℕ) : Complex.normSq (xi ^ k * threeCC b c d) = delta0 b c := by
  rw [Complex.normSq_mul, map_pow, normSq_xi, one_pow, one_mul,
    normSq_threeCC b c d h]

lemma conj_xik_cc (b c d : ℝ) (h : 0 < 4 * delta0 b c ^ 3 - delta1 b c d ^ 2)
    (k : ℕ) : (starRingEnd ℂ) (xi ^ k * threeCC b c d)
      = ((delta0 b c : ℝ) : ℂ) / (xi ^ k * threeCC b c d) := by
  have hu := xik_cc_ne_zero b c d h k
  rw [eq_div_iff hu]
  rw [mul_comm, Complex.mul_conj, normSq_xik_cc b c d h k]

lemma xik_cc_cubed (b c d : ℝ) (k : ℕ) :
    (xi ^ k * threeCC b c d) ^ (3 : ℕ) = threeZ b c d := by
  rw [mul_pow, ← pow_mul, mul_comm k 3, pow_mul, xi_cubed, one_pow, one_mul,
    threeCC_cubed]

lemma threeRootAux_val (b c d : ℝ) (h : 0 < 4 * delta0 b c ^ 3 - delta1 b c d ^ 2)
    (k : ℕ) : threeRootAux k b c d
      = -(1 / 3) * (b + 2 * (xi ^ k * threeCC b c d).re) := by
  unfold threeRootAux
  rw [conj_xik_cc b c d h k |>.symm]
  rw [add_assoc, Complex.add_conj]
  simp [Complex.mul_re]

lemma threeRootAux_isRoot (b c d : ℝ)
    (h : 0 < 4 * delta0 b c ^ 3 - delta1 b c d ^ 2) (k : ℕ) :
    cubicEval b c d (threeRootAux k b c d) = 0 := by
  have hu := xik_cc_ne_zero b c d h k
  have hz := threeZ_ne_zero b c d h
  have hu3 := xik_cc_cubed b c d k
  -- the sum of the cubes of u and delta0 / u is delta1
  have hv3 : (((delta0 b c : ℝ) : ℂ) / (xi ^ k * threeCC b c d)) ^ (3 : ℕ)
      = (starRingEnd ℂ) (threeZ b c d) := by
    rw [div_pow, hu3, eq_comm, eq_div_iff hz, mul_comm, Complex.mul_conj,
      normSq_threeZ b c d h]
    push_cast
    ring
  have hsum : (xi ^ k * threeCC b c d) ^ (3 : ℕ)
      + (((delta0 b c : ℝ) : ℂ) / (xi ^ k * threeCC b c d)) ^ (3 : ℕ)
      = 2 * (b : ℂ) ^ 3 - 9 * (b : ℂ) * (c : ℂ) + 27 * (d : ℂ) := by
    rw [hu3, hv3, Complex.add_conj, threeZ_re b c d h]
    push_cast [delta1]
    ring
  have huv : (xi ^ k * threeCC b c d) * (((delta0 b c : ℝ) : ℂ) / (xi ^ k * threeCC b c d))
      = (b : ℂ) ^ 2 - 3 * (c : ℂ) := by
    rw [mul_div_cancel₀ _ hu]
    push_cast [delta0]
    ring
  have hroot := cardanoRoot ((b : ℝ) : ℂ) ((c : ℝ) : ℂ) ((d : ℝ) : ℂ)
    (xi ^ k * threeCC b c d) (((delta0 b c : ℝ) : ℂ) / (xi ^ k * threeCC b c d)) huv hsum
  -- the complex Cardano point is the real number threeRootAux k b c d
  have hcast : ((threeRootAux k b c d : ℝ) : ℂ)
      = -(((b : ℝ) : ℂ) + (xi ^ k * threeCC b c d)
          + ((delta0 b c : ℝ) : ℂ) / (xi ^ k * threeCC b c d)) / 3 := by
    rw [threeRootAux_val b c d h k]
    rw [conj_xik_cc b c d h k |>.symm, add_assoc, Complex.add_conj]
    push_cast
    ring
  have hzero : ((cubicEval b c d (threeRootAux k b c d) : ℝ) : ℂ) = 0 := by
    unfold cubicEval
    push_cast
    rw [hcast]
    convert hroot using 2
  exact_mod_cast hzero

lemma threeCC_im_prod_pos (b c d : ℝ)
    (h : 0 < 4 * delta0 b c ^ 3 - delta1 b c d ^ 2) :
    0 < (threeCC b c d).im * (3 * (threeCC b c d).re ^ 2 - (threeCC b c d).im ^ 2) := by
  have h3 : (threeCC b c d ^ (3 : ℕ)).im = Real.sqrt (4 * delta0 b c ^ 3 - delta1 b c d ^ 2) / 2 := by
    rw [threeCC_cubed b c d, threeZ_im b c d h]
  have hexp : (threeCC b c d ^ (3 : ℕ)).im
      = 3 * (threeCC b c d).re ^ 2 * (threeCC b c d).im - (threeCC b c d).im ^ 3 := by
    rw [show threeCC b c d ^ (3 : ℕ) = threeCC b c d * (threeCC b c d * threeCC b c d) by ring]
    simp only [Complex.mul_im, Complex.mul_re]
    ring
  have hpos : 0 < Real.sqrt (4 * delta0 b c ^ 3 - delta1 b c d ^ 2) := Real.sqrt_pos.mpr h
  nlinarith [h3, hexp]

lemma threeRootAux_distinct (b c d : ℝ)
    (h : 0 < 4 * delta0 b c ^ 3 - delta1 b c d ^ 2) :
    threeRootAux 0 b c d ≠ threeRootAux 1 b c d ∧
    threeRootAux 0 b c d ≠ threeRootAux 2 b c d ∧
    threeRootAux 1 b c d ≠ threeRootAux 2 b c d := by
  have hprod := threeCC_im_prod_pos b c d h
  have h3 : Real.sqrt 3 ^ 2 = 3 := Real.sq_sqrt (by norm_num)
  have h3pos : 0 < Real.sqrt 3 := Real.sqrt_pos.mpr (by norm_num)
  have hv0 := threeRootAux_val b c d h 0
  have hv1 := threeRootAux_val b c d h 1
  have hv2 := threeRootAux_val b c d h 2
  rw [pow_zero, one_mul] at hv0
  rw [pow_one] at hv1
  have hre1 : (xi * threeCC b c d).re
      = -(1 / 2) * (threeCC b c d).re - Real.sqrt 3 / 2 * (threeCC b c d).im := by
    rw [Complex.mul_re, xi_re, xi_im]
  have hre2 : (xi ^ 2 * threeCC b c d).re
      = -(1 / 2) * (threeCC b c d).re + Real.sqrt 3 / 2 * (threeCC b c d).im := by
    rw [Complex.mul_re, xisq_re, xisq_im]
    ring
  rw [hre1] at hv1
  rw [hre2] at hv2
  refine ⟨?_, ?_, ?_⟩
  · intro heq
    rw [hv0, hv1] at heq
    have hlin : Real.sqrt 3 * (threeCC b c d).im = -(3 * (threeCC b c d).re) := by
      linear_combination (-3) * heq
    have hsq : 3 * (threeCC b c d).im ^ 2 = 9 * (threeCC b c d).re ^ 2 := by
      calc 3 * (threeCC b c d).im ^ 2
          = Real.sqrt 3 ^ 2 * (threeCC b c d).im ^ 2 := by rw [h3]
        _ = (Real.sqrt 3 * (threeCC b c d).im) ^ 2 := by ring
        _ = (-(3 * (threeCC b c d).re)) ^ 2 := by rw [hlin]
        _ = 9 * (threeCC b c d).re ^ 2 := by ring
    have hzero : 3 * (threeCC b c d).re ^ 2 - (threeCC b c d).im ^ 2 = 0 := by linarith
    have hfin : (threeCC b c d).im * (3 * (threeCC b c d).re ^ 2 - (threeCC b c d).im ^ 2) = 0 := by
      rw [hzero, mul_zero]
    linarith [hprod, hfin]
  · intro heq
    rw [hv0, hv2] at heq
    have hlin : Real.sqrt 3 * (threeCC b c d).im = 3 * (threeCC b c d).re := by
      linear_combination 3 * heq
    have hsq : 3 * (threeCC b c d).im ^ 2 = 9 * (threeCC b c d).re ^ 2 := by
      calc 3 * (threeCC b c d).im ^ 2
          = Real.sqrt 3 ^ 2 * (threeCC b c d).im ^ 2 := by rw [h3]
        _ = (Real.sqrt 3 * (threeCC b c d).im) ^ 2 := by ring
        _ = (3 * (threeCC b c d).re) ^ 2 := by rw [hlin]
        _ = 9 * (threeCC b c d).re ^ 2 := by ring
    have hzero : 3 * (threeCC b c d).re ^ 2 - (threeCC b c d).im ^ 2 = 0 := by linarith
    have hfin : (threeCC b c d).im * (3 * (threeCC b c d).re ^ 2 - (threeCC b c d).im ^ 2) = 0 := by
      rw [hzero, mul_zero]
    linarith [hprod, hfin]
  · intro heq
    rw [hv1, hv2] at heq
    have hq : Real.sqrt 3 * (threeCC b c d).im = 0 := by
      linear_combination (3 / 2) * heq
    have him : (threeCC b c d).im = 0 := by
      rcases mul_eq_zero.mp hq with h0 | h0
      · linarith
      · exact h0
    rw [him] at hprod
    simp at hprod

/- ---------- choose = np.min / np.max ---------- -/

lemma chooseMin_mem : ∀ l : List ℝ, l ≠ [] → chooseMin l ∈ l
  | [], h => absurd rfl h
  | [x], _ => by simp [chooseMin]
  | x :: y :: ys, _ => by
    rw [chooseMin]
    rcases min_choice x (chooseMin (y :: ys)) with h | h
    · rw [h]
      exact List.mem_cons_self x (y :: ys)
    · rw [h]
      exact List.mem_cons_of_mem x (chooseMin_mem (y :: ys) (by simp))

lemma chooseMax_mem : ∀ l : List ℝ, l ≠ [] → chooseMax l ∈ l
  | [], h => absurd rfl h
  | [x], _ => by simp [chooseMax]
  | x :: y :: ys, _ => by
    rw [chooseMax]
    rcases max_choice x (chooseMax (y :: ys)) with h | h
    · rw [h]
      exact List.mem_cons_self x (y :: ys)
    · rw [h]
      exact List.mem_cons_of_mem x (chooseMax_mem (y :: ys) (by simp))

lemma chooseMin_pair (a b : ℝ) : chooseMin [a, b] = min a b := by
  rw [chooseMin, chooseMin]

lemma chooseMax_pair (a b : ℝ) : chooseMax [a, b] = max a b := by
  rw [chooseMax, chooseMax]

lemma chooseMin_triple (a b c : ℝ) : chooseMin [a, b, c] = min a (min b c) := by
  rw [chooseMin, chooseMin, chooseMin]

lemma chooseMax_triple (a b c : ℝ) : chooseMax [a, b, c] = max a (max b c) := by
  rw [chooseMax, chooseMax, chooseMax]

/- ---------- the combined root property of kerrDetuningPoint ---------- -/

/-- Whenever choose selects one of its candidates (as np.min and np.max do),
and the degenerate point of the one-real-root formula (delta0 = 0 with
delta1 < 0, where cc = 0 and the code divides by zero) is avoided, the value
returned by kerr_detuning is an exact root of the cubic, in each of the three
discriminant cases. -/
lemma kerrPoint_isRoot (choose : List ℝ → ℝ)
    (hchoose : ∀ l : List ℝ, l ≠ [] → choose l ∈ l) (x cl il K : ℝ)
    (hdeg : ¬(delta0 (cubicB x) (cubicC cl il x) = 0 ∧
      delta1 (cubicB x) (cubicC cl il x) (cubicD cl K) < 0)) :
    cubicEval (cubicB x) (cubicC cl il x) (cubicD cl K)
      (kerrDetuningPoint choose x cl il K) = 0 := by
  rcases lt_trichotomy (disc (cubicB x) (cubicC cl il x) (cubicD cl K)) 0 with hΔ | hΔ | hΔ
  · rw [kerrPoint_eq_oneReal choose x cl il K hΔ]
    exact oneRealRoot_isRoot _ _ _ hΔ hdeg
  · by_cases hδ : delta0 (cubicB x) (cubicC cl il x) = 0
    · rw [kerrPoint_eq_triple choose x cl il K hΔ hδ]
      exact tripleRoot_isRoot _ _ _ hΔ hδ
    · rw [kerrPoint_eq_double choose x cl il K hΔ hδ]
      have hmem := hchoose [doubleRoot (cubicB x) (cubicC cl il x) (cubicD cl K),
        simpleRoot (cubicB x) (cubicC cl il x) (cubicD cl K)] (by simp)
      simp only [List.mem_cons, List.mem_singleton, List.not_mem_nil, or_false] at hmem
      rcases hmem with h | h
      · rw [h]
        exact doubleRoot_isRoot _ _ _ hΔ hδ
      · rw [h]
        exact simpleRoot_isRoot _ _ _ hΔ hδ
  · rw [kerrPoint_eq_three choose x cl il K hΔ]
    have hnum := disc_pos_numerator _ _ _ hΔ
    have hmem := hchoose [threeRoot0 (cubicB x) (cubicC cl il x) (cubicD cl K),
      threeRoot1 (cubicB x) (cubicC cl il x) (cubicD cl K),
      threeRoot2 (cubicB x) (cubicC cl il x) (cubicD cl K)] (by simp)
    simp only [List.mem_cons, List.mem_singleton, List.not_mem_nil, or_false] at hmem
    rcases hmem with h | h | h
    · rw [h, threeRoot0_eq_aux]
      exact threeRootAux_isRoot _ _ _ hnum 0
    · rw [h, threeRoot1_eq_aux]
      exact threeRootAux_isRoot _ _ _ hnum 1
    · rw [h, threeRoot2_eq_aux]
      exact threeRootAux_isRoot _ _ _ hnum 2

/- ---------- KXin = 0 : the cubic has the single real root 0 ---------- -/

lemma disc_neg_of_KXin_zero (x cl il : ℝ) (hL : 0 < cl + il) :
    disc (cubicB x) (cubicC cl il x) (cubicD cl 0) < 0 := by
  have key : delta1 (cubicB x) (cubicC cl il x) (cubicD cl 0) ^ 2
      - 4 * delta0 (cubicB x) (cubicC cl il x) ^ 3
      = 27 * x ^ 4 * (cl + il) ^ 2 + 27 / 2 * x ^ 2 * (cl + il) ^ 4
        + 27 / 16 * (cl + il) ^ 6 := by
    unfold delta0 delta1 cubicB cubicC cubicD
    ring
  have hpos : 0 < delta1 (cubicB x) (cubicC cl il x) (cubicD cl 0) ^ 2
      - 4 * delta0 (cubicB x) (cubicC cl il x) ^ 3 := by
    rw [key]
    nlinarith [pow_pos hL 6, sq_nonneg (x ^ 2 * (cl + il)), sq_nonneg (x * (cl + il) ^ 2)]
  unfold disc
  linarith

lemma delta1_val_KXin_zero (x cl il : ℝ) :
    delta1 (cubicB x) (cubicC cl il x) (cubicD cl 0)
      = x * (2 * x ^ 2 + 9 / 2 * (cl + il) ^ 2) := by
  unfold delta1 cubicB cubicC cubicD
  ring

/-- At zero drive the cubic is y * (y ^ 2 + b y + c) with the quadratic factor
positive definite, so away from the degenerate detuning the returned kerr
detuning is exactly 0, for every choose function. -/
lemma kerrPoint_KXin_zero (choose : List ℝ → ℝ) (x cl il : ℝ) (hL : 0 < cl + il)
    (hx : x ≠ -(Real.sqrt 3 * (cl + il) / 2)) :
    kerrDetuningPoint choose x cl il 0 = 0 := by
  have hΔ := disc_neg_of_KXin_zero x cl il hL
  have hs3 : Real.sqrt 3 ^ 2 = 3 := Real.sq_sqrt (by norm_num)
  have hdeg : ¬(delta0 (cubicB x) (cubicC cl il x) = 0 ∧
      delta1 (cubicB x) (cubicC cl il x) (cubicD cl 0) < 0) := by
    rintro ⟨h0, h1⟩
    unfold delta0 cubicB cubicC at h0
    have hfact : (x - Real.sqrt 3 * (cl + il) / 2) * (x + Real.sqrt 3 * (cl + il) / 2) = 0 := by
      linear_combination h0 + (-(cl + il) ^ 2 / 4) * hs3
    rcases mul_eq_zero.mp hfact with hx1 | hx2
    · have hxval : x = Real.sqrt 3 * (cl + il) / 2 := by linarith
      have hxpos : 0 < x := by
        rw [hxval]
        exact div_pos (mul_pos (Real.sqrt_pos.mpr (by norm_num)) hL) two_pos
      have hδ1 := delta1_val_KXin_zero x cl il
      have hq : 0 < 2 * x ^ 2 + 9 / 2 * (cl + il) ^ 2 := by
        nlinarith [sq_nonneg x, pow_pos hL 2]
      nlinarith [mul_pos hxpos hq, h1, hδ1]
    · exact hx (by linarith)
  rw [kerrPoint_eq_oneReal choose x cl il 0 hΔ]
  have hroot := oneRealRoot_isRoot _ _ _ hΔ hdeg
  unfold cubicEval at hroot
  set r := oneRealRoot (cubicB x) (cubicC cl il x) (cubicD cl 0) with hr
  have hd : cubicD cl 0 = 0 := by
    unfold cubicD
    ring
  have hfact : r * (r ^ 2 + cubicB x * r + cubicC cl il x) = 0 := by
    linear_combination hroot - hd
  have hquad : 0 < r ^ 2 + cubicB x * r + cubicC cl il x := by
    have hb : cubicB x = -2 * x := rfl
    have hc : cubicC cl il x = ((cl + il) / 2) ^ 2 + x ^ 2 := rfl
    rw [hb, hc]
    nlinarith [sq_nonneg (r - x), pow_pos (div_pos hL two_pos) 2]
  rcases mul_eq_zero.mp hfact with h | h
  · exact h
  · linarith

/- ---------- the degenerate point of the one-real-root formula ---------- -/

/-- At detuning -sqrt(3)/2 with coupling_loss = internal_loss = 1/2 and
KXin = 0 the code computes cc = cbrt(0) = 0 and divides by zero: numpy emits
0/0 = nan, while under Lean's total division (x / 0 = 0) the branch returns
-b / 3 = -sqrt(3)/3, which is not a root of the cubic.  Either way the returned
value fails the root property at this input. -/
lemma kerrPoint_degenerate_value (choose : List ℝ → ℝ) :
    kerrDetuningPoint choose (-(Real.sqrt 3 / 2)) (1 / 2) (1 / 2) 0
      = -(Real.sqrt 3) / 3 := by
  have hs3 : Real.sqrt 3 ^ 2 = 3 := Real.sq_sqrt (by norm_num)
  have hb : cubicB (-(Real.sqrt 3 / 2)) = Real.sqrt 3 := by
    unfold cubicB
    ring
  have hc : cubicC (1 / 2) (1 / 2) (-(Real.sqrt 3 / 2)) = 1 := by
    unfold cubicC
    linear_combination (1 / 4) * hs3
  have hd : cubicD (1 / 2) 0 = 0 := by
    unfold cubicD
    ring
  have hδ0 : delta0 (cubicB (-(Real.sqrt 3 / 2))) (cubicC (1 / 2) (1 / 2) (-(Real.sqrt 3 / 2))) = 0 := by
    rw [hb, hc]
    unfold delta0
    linear_combination hs3
  have hδ1 : delta1 (cubicB (-(Real.sqrt 3 / 2))) (cubicC (1 / 2) (1 / 2) (-(Real.sqrt 3 / 2)))
      (cubicD (1 / 2) 0) = -(3 * Real.sqrt 3) := by
    rw [hb, hc, hd]
    unfold delta1
    linear_combination (2 * Real.sqrt 3) * hs3
  have h27 : delta1 (cubicB (-(Real.sqrt 3 / 2))) (cubicC (1 / 2) (1 / 2) (-(Real.sqrt 3 / 2)))
      (cubicD (1 / 2) 0) ^ 2
      - 4 * delta0 (cubicB (-(Real.sqrt 3 / 2))) (cubicC (1 / 2) (1 / 2) (-(Real.sqrt 3 / 2))) ^ 3
      = 27 := by
    rw [hδ0, hδ1]
    linear_combination 9 * hs3
  have hΔ : disc (cubicB (-(Real.sqrt 3 / 2))) (cubicC (1 / 2) (1 / 2) (-(Real.sqrt 3 / 2)))
      (cubicD (1 / 2) 0) < 0 := by
    unfold disc
    have h4 : 4 * delta0 (cubicB (-(Real.sqrt 3 / 2)))
        (cubicC (1 / 2) (1 / 2) (-(Real.sqrt 3 / 2))) ^ 3
        - delta1 (cubicB (-(Real.sqrt 3 / 2))) (cubicC (1 / 2) (1 / 2) (-(Real.sqrt 3 / 2)))
          (cubicD (1 / 2) 0) ^ 2 = -27 := by
      linarith [h27]
    rw [h4]
    norm_num
  rw [kerrPoint_eq_oneReal choose _ _ _ _ hΔ]
  have hsqrt27 : Real.sqrt 27 = 3 * Real.sqrt 3 := by
    rw [show (27 : ℝ) = 3 ^ 2 * 3 by norm_num, Real.sqrt_mul (by positivity) 3,
      Real.sqrt_sq (by norm_num)]
  have hcc : oneRealCC (cubicB (-(Real.sqrt 3 / 2))) (cubicC (1 / 2) (1 / 2) (-(Real.sqrt 3 / 2)))
      (cubicD (1 / 2) 0) = 0 := by
    unfold oneRealCC
    rw [h27, hδ1, hsqrt27]
    rw [show (-(3 * Real.sqrt 3) + 3 * Real.sqrt 3) / 2 = 0 by ring]
    exact (cbrt_eq_zero_iff 0).mpr rfl
  unfold oneRealRoot
  rw [hcc, hδ0, hb]
  simp

/-- C1 counterexample: at the physically valid input detuning = -sqrt(3)/2,
coupling_loss = internal_loss = 1/2, KXin = 0 (a delta < 0 point), the value
returned by kerr_detuning does not satisfy the cubic equation: the Cardano
coefficient cc vanishes there and the formula divides by zero. -/
theorem kerr_root_cubic_fails_at_degenerate :
    cubicEval (cubicB (-(Real.sqrt 3 / 2))) (cubicC (1 / 2) (1 / 2) (-(Real.sqrt 3 / 2)))
      (cubicD (1 / 2) 0)
      (kerrDetuningPoint chooseMin (-(Real.sqrt 3 / 2)) (1 / 2) (1 / 2) 0) ≠ 0 := by
  have hs3 : Real.sqrt 3 ^ 2 = 3 := Real.sq_sqrt (by norm_num)
  have hs3pos : 0 < Real.sqrt 3 := Real.sqrt_pos.mpr (by norm_num)
  rw [kerrPoint_degenerate_value chooseMin]
  rw [show cubicB (-(Real.sqrt 3 / 2)) = Real.sqrt 3 from by unfold cubicB; ring]
  rw [show cubicC (1 / 2) (1 / 2) (-(Real.sqrt 3 / 2)) = 1 from by
    unfold cubicC; linear_combination (1 / 4) * hs3]
  rw [show cubicD (1 / 2) 0 = 0 from by unfold cubicD; ring]
  unfold cubicEval
  intro heq
  have h0 : Real.sqrt 3 = 0 := by
    linear_combination (-9) * heq + (2 / 3 * Real.sqrt 3) * hs3
  linarith

/-- C1 (amended): for every choose function that selects one of its candidate
roots (np.min and np.max do), every physically valid input, and every point
other than the degenerate one (delta0 = 0 together with delta1 < 0, where the
one-real-root formula divides by zero), the value returned by kerr_detuning
satisfies the cubic equation exactly, in each of the three discriminant
cases. -/
theorem kerr_root_satisfies_cubic (choose : List ℝ → ℝ)
    (hchoose : ∀ l : List ℝ, l ≠ [] → choose l ∈ l)
    (detuning coupling_loss internal_loss KXin : ℝ)
    (hcl : 0 < coupling_loss ∧ coupling_loss < 1)
    (hil : 0 < internal_loss ∧ internal_loss < 1)
    (hK : 0 ≤ KXin)
    (hdeg : ¬(delta0 (cubicB detuning) (cubicC coupling_loss internal_loss detuning) = 0 ∧
      delta1 (cubicB detuning) (cubicC coupling_loss internal_loss detuning)
        (cubicD coupling_loss KXin) < 0)) :
    cubicEval (cubicB detuning) (cubicC coupling_loss internal_loss detuning)
      (cubicD coupling_loss KXin)
      (kerrDetuningPoint choose detuning coupling_loss internal_loss KXin) = 0 :=
  kerrPoint_isRoot choose hchoose detuning coupling_loss internal_loss KXin hdeg

/-- Witness for C1 at choose = np.min, detuning = 0, coupling_loss =
internal_loss = 1/2, KXin = 1. -/
theorem kerr_root_satisfies_cubic_witness :
    (0 < (1 / 2 : ℝ) ∧ (1 / 2 : ℝ) < 1 ∧ (0 : ℝ) ≤ 1) ∧
    cubicEval (cubicB 0) (cubicC (1 / 2) (1 / 2) 0) (cubicD (1 / 2) 1)
      (kerrDetuningPoint chooseMin 0 (1 / 2) (1 / 2) 1) = 0 :=
  ⟨by norm_num,
   kerr_root_satisfies_cubic chooseMin chooseMin_mem 0 (1 / 2) (1 / 2) 1
     (by norm_num) (by norm_num) (by norm_num)
     (fun h => absurd h.1 (by norm_num [delta0, cubicB, cubicC]))⟩

/- ---------- C2 : the nonlinear model at KXin = 0 ---------- -/

lemma shuntDenom_re (internal_loss coupling_loss t : ℝ) :
    (1 + ((internal_loss : ℝ) + 2 * Complex.I * ((t : ℝ) : ℂ)) / ((coupling_loss : ℝ) : ℂ)).re
      = 1 + internal_loss / coupling_loss := by
  simp [Complex.mul_re]

lemma shuntDenom_ne_zero (internal_loss coupling_loss t : ℝ)
    (hil : 0 < internal_loss) (hcl : 0 < coupling_loss) :
    (1 + ((internal_loss : ℝ) + 2 * Complex.I * ((t : ℝ) : ℂ)) / ((coupling_loss : ℝ) : ℂ)) ≠ 0 := by
  intro h
  have hre := congrArg Complex.re h
  rw [shuntDenom_re] at hre
  simp at hre
  nlinarith [div_pos hil hcl]

lemma one_add_I_mul_ne_zero (a : ℝ) : (1 + Complex.I * ((a : ℝ) : ℂ)) ≠ 0 := by
  intro h
  have hre := congrArg Complex.re h
  simp [Complex.mul_re] at hre

/-- The shunt response is injective in the detuning that enters the bracket:
equal responses force equal detunings (losses positive). -/
lemma shunt_form_injective (internal_loss coupling_loss asymmetry : ℝ)
    (hil : 0 < internal_loss) (hcl : 0 < coupling_loss) (t1 t2 : ℝ)
    (h : 1 - (1 + Complex.I * ((asymmetry : ℝ) : ℂ)) /
        (1 + ((internal_loss : ℝ) + 2 * Complex.I * ((t1 : ℝ) : ℂ)) / ((coupling_loss : ℝ) : ℂ))
      = 1 - (1 + Complex.I * ((asymmetry : ℝ) : ℂ)) /
        (1 + ((internal_loss : ℝ) + 2 * Complex.I * ((t2 : ℝ) : ℂ)) / ((coupling_loss : ℝ) : ℂ))) :
    t1 = t2 := by
  have hD1 := shuntDenom_ne_zero internal_loss coupling_loss t1 hil hcl
  have hD2 := shuntDenom_ne_zero internal_loss coupling_loss t2 hil hcl
  have hnum := one_add_I_mul_ne_zero asymmetry
  have hAB : (1 + Complex.I * ((asymmetry : ℝ) : ℂ)) /
      (1 + ((internal_loss : ℝ) + 2 * Complex.I * ((t1 : ℝ) : ℂ)) / ((coupling_loss : ℝ) : ℂ))
      = (1 + Complex.I * ((asymmetry : ℝ) : ℂ)) /
      (1 + ((internal_loss : ℝ) + 2 * Complex.I * ((t2 : ℝ) : ℂ)) / ((coupling_loss : ℝ) : ℂ)) := by
    linear_combination (-1 : ℂ) * h
  rw [div_eq_div_iff hD1 hD2] at hAB
  have hD : (1 + ((internal_loss : ℝ) + 2 * Complex.I * ((t2 : ℝ) : ℂ)) / ((coupling_loss : ℝ) : ℂ))
      = (1 + ((internal_loss : ℝ) + 2 * Complex.I * ((t1 : ℝ) : ℂ)) / ((coupling_loss : ℝ) : ℂ)) :=
    mul_left_cancel₀ hnum hAB
  have hcl' : ((coupling_loss : ℝ) : ℂ) ≠ 0 := Complex.ofReal_ne_zero.mpr (ne_of_gt hcl)
  have hdiv := add_left_cancel hD
  field_simp at hdiv
  exact hdiv.symm

/-- C2 counterexample: at frequency = 1 - sqrt(3)/2, resonance_frequency = 1,
coupling_loss = internal_loss = 1/2, asymmetry = 0 and KXin = 0, the detuning
is the degenerate point -sqrt(3)/2 of the one-real-root formula, the returned
kerr detuning is not 0 (numpy: nan), and the nonlinear model differs from the
linear model. -/
theorem nonlinear_eq_linear_fails_at_degenerate :
    shunt_nonlinear chooseMin (1 - Real.sqrt 3 / 2) 1 (1 / 2) (1 / 2) 0 0
      ≠ shunt (1 - Real.sqrt 3 / 2) 1 (1 / 2) (1 / 2) 0 := by
  intro heq
  unfold shunt_nonlinear shunt at heq
  have ht := shunt_form_injective (1 / 2) (1 / 2) 0 (by norm_num) (by norm_num) _ _ heq
  have hker : kerrDetuningPoint chooseMin ((1 - Real.sqrt 3 / 2) / 1 - 1) (1 / 2) (1 / 2) 0
      = -(Real.sqrt 3) / 3 := by
    rw [show ((1 - Real.sqrt 3 / 2) / 1 - 1 : ℝ) = -(Real.sqrt 3 / 2) by ring]
    exact kerrPoint_degenerate_value chooseMin
  rw [hker] at ht
  have hs3pos : 0 < Real.sqrt 3 := Real.sqrt_pos.mpr (by norm_num)
  linarith [ht]

/-- C2 (amended): for every choose function and all parameters with positive
losses, at KXin = 0 the nonlinear shunt model equals the linear shunt model at
every detuning except the degenerate detuning -sqrt(3) (coupling_loss +
internal_loss) / 2, where the resolver's formula divides by zero. -/
theorem nonlinear_eq_linear_at_zero_drive (choose : List ℝ → ℝ)
    (frequency resonance_frequency internal_loss coupling_loss asymmetry : ℝ)
    (hrf : 0 < resonance_frequency)
    (hil : 0 < internal_loss ∧ internal_loss < 1)
    (hcl : 0 < coupling_loss ∧ coupling_loss < 1)
    (hx : frequency / resonance_frequency - 1
      ≠ -(Real.sqrt 3 * (coupling_loss + internal_loss) / 2)) :
    shunt_nonlinear choose frequency resonance_frequency internal_loss coupling_loss asymmetry 0
      = shunt frequency resonance_frequency internal_loss coupling_loss asymmetry := by
  unfold shunt_nonlinear shunt
  rw [kerrPoint_KXin_zero choose _ _ _ (by linarith [hcl.1, hil.1]) hx]
  norm_num

/-- Witness for C2 at choose = np.min, frequency = resonance_frequency = 1,
coupling_loss = internal_loss = 1/2, asymmetry = 0. -/
theorem nonlinear_eq_linear_at_zero_drive_witness :
    (0 < (1 : ℝ)) ∧
    shunt_nonlinear chooseMin 1 1 (1 / 2) (1 / 2) 0 0 = shunt 1 1 (1 / 2) (1 / 2) 0 :=
  ⟨by norm_num,
   nonlinear_eq_linear_at_zero_drive chooseMin 1 1 (1 / 2) (1 / 2) 0 (by norm_num)
     (by norm_num) (by norm_num)
     (by
       have h := Real.sqrt_pos.mpr (show (0 : ℝ) < 3 by norm_num)
       intro hcontra
       norm_num at hcontra)⟩

/- ---------- C3 : the bifurcation threshold ---------- -/

lemma rpow_neg_three_half : (3 : ℝ) ^ ((-3 : ℝ) / 2) = Real.sqrt 3 / 9 := by
  have hs3 : Real.sqrt 3 ^ 2 = 3 := Real.sq_sqrt (by norm_num)
  have hs3pos : 0 < Real.sqrt 3 := Real.sqrt_pos.mpr (by norm_num)
  have hne : Real.sqrt 3 ≠ 0 := ne_of_gt hs3pos
  have h1 : ((-3 : ℝ) / 2) = (-(3 / 2) : ℝ) := by norm_num
  rw [h1, Real.rpow_neg (by norm_num : (0 : ℝ) ≤ 3)]
  have h2 : (3 : ℝ) ^ ((3 : ℝ) / 2) = 3 * Real.sqrt 3 := by
    have h3 : ((3 : ℝ) / 2) = 1 + (1 / 2 : ℝ) := by norm_num
    rw [h3, Real.rpow_add (by norm_num : (0 : ℝ) < 3), Real.rpow_one, ← Real.sqrt_eq_rpow]
  rw [h2]
  rw [eq_div_iff (by norm_num : (9 : ℝ) ≠ 0), inv_mul_eq_div,
    div_eq_iff (by positivity : (3 : ℝ) * Real.sqrt 3 ≠ 0)]
  linear_combination (-3) * hs3

/-- C3: kerr_detuning_at_bifurcation equals the closed-form threshold
3 ^ (-3/2) (internal_loss + coupling_loss) ^ 3 / coupling_loss, and at
KXin equal to this threshold the discriminant computed by kerr_detuning
vanishes exactly at detuning sqrt(3) (coupling_loss + internal_loss) / 2
(where delta0 = delta1 = 0, the onset of multi-root behaviour). -/
theorem bifurcation_threshold_and_disc_zero (coupling_loss internal_loss : ℝ)
    (hcl : 0 < coupling_loss ∧ coupling_loss < 1)
    (hil : 0 < internal_loss ∧ internal_loss < 1) :
    kerr_detuning_at_bifurcation coupling_loss internal_loss
      = (3 : ℝ) ^ ((-3 : ℝ) / 2) * (internal_loss + coupling_loss) ^ 3 / coupling_loss ∧
    ∃ detuning : ℝ,
      disc (cubicB detuning) (cubicC coupling_loss internal_loss detuning)
        (cubicD coupling_loss (kerr_detuning_at_bifurcation coupling_loss internal_loss)) = 0 := by
  refine ⟨rfl, ⟨Real.sqrt 3 * (coupling_loss + internal_loss) / 2, ?_⟩⟩
  have hs3 : Real.sqrt 3 ^ 2 = 3 := Real.sq_sqrt (by norm_num)
  have hd : cubicD coupling_loss (kerr_detuning_at_bifurcation coupling_loss internal_loss)
      = -(Real.sqrt 3 / 9) * (internal_loss + coupling_loss) ^ 3 := by
    unfold cubicD kerr_detuning_at_bifurcation
    rw [rpow_neg_three_half]
    field_simp [ne_of_gt hcl.1]
    ring
  have hδ0 : delta0 (cubicB (Real.sqrt 3 * (coupling_loss + internal_loss) / 2))
      (cubicC coupling_loss internal_loss (Real.sqrt 3 * (coupling_loss + internal_loss) / 2)) = 0 := by
    unfold delta0 cubicB cubicC
    linear_combination ((coupling_loss + internal_loss) ^ 2 / 4) * hs3
  have hδ1 : delta1 (cubicB (Real.sqrt 3 * (coupling_loss + internal_loss) / 2))
      (cubicC coupling_loss internal_loss (Real.sqrt 3 * (coupling_loss + internal_loss) / 2))
      (cubicD coupling_loss (kerr_detuning_at_bifurcation coupling_loss internal_loss)) = 0 := by
    unfold delta1 cubicB cubicC
    rw [hd]
    linear_combination (Real.sqrt 3 * (coupling_loss + internal_loss) ^ 3 / 4) * hs3
  unfold disc
  rw [hδ0, hδ1]
  norm_num

/-- Witness for C3 at coupling_loss = internal_loss = 1/2. -/
theorem bifurcation_threshold_and_disc_zero_witness :
    ∃ detuning : ℝ,
      disc (cubicB detuning) (cubicC (1 / 2) (1 / 2) detuning)
        (cubicD (1 / 2) (kerr_detuning_at_bifurcation (1 / 2) (1 / 2))) = 0 :=
  (bifurcation_threshold_and_disc_zero (1 / 2) (1 / 2) (by norm_num) (by norm_num)).2

/- ---------- C4 : invert inverts the linear shunt model ---------- -/

/-- C4: applying ShuntFitter.invert with the same coupling_loss and asymmetry
to the linear shunt model value recovers exactly the original pair
(detuning, internal_loss) with detuning = frequency / resonance_frequency - 1. -/
theorem invert_shunt_roundtrip
    (frequency resonance_frequency internal_loss coupling_loss asymmetry : ℝ)
    (hrf : 0 < resonance_frequency) (hil : 0 < internal_loss) (hcl : 0 < coupling_loss) :
    ShuntFitter.invert coupling_loss asymmetry
        (shunt frequency resonance_frequency internal_loss coupling_loss asymmetry)
      = (frequency / resonance_frequency - 1, internal_loss) := by
  unfold ShuntFitter.invert shunt
  have hnum := one_add_I_mul_ne_zero asymmetry
  set a : ℂ := 1 + Complex.I * ((asymmetry : ℝ) : ℂ) with ha
  set D : ℂ := 1 + (((internal_loss : ℝ) : ℂ)
    + 2 * Complex.I * ((frequency / resonance_frequency - 1 : ℝ) : ℂ))
      / ((coupling_loss : ℝ) : ℂ) with hDdef
  have hsub : (1 : ℂ) - (1 - a / D) = a / D := by ring
  rw [hsub]
  have hDval : a / (a / D) = D := by
    rw [div_div_eq_mul_div, mul_comm, mul_div_assoc, div_self hnum, mul_one]
  rw [hDval]
  have hcl' : ((coupling_loss : ℝ) : ℂ) ≠ 0 := Complex.ofReal_ne_zero.mpr (ne_of_gt hcl)
  have hD1 : ((coupling_loss : ℝ) : ℂ) * (D - 1)
      = ((internal_loss : ℝ) : ℂ)
        + 2 * Complex.I * ((frequency / resonance_frequency - 1 : ℝ) : ℂ) := by
    rw [hDdef]
    field_simp
  rw [hD1]
  simp [Complex.mul_im, Complex.mul_re]

/-- Witness for C4 at frequency = 1, resonance_frequency = 2,
internal_loss = coupling_loss = 1/2, asymmetry = 1. -/
theorem invert_shunt_roundtrip_witness :
    (0 < (2 : ℝ) ∧ 0 < (1 / 2 : ℝ)) ∧
    ShuntFitter.invert (1 / 2) 1 (shunt 1 2 (1 / 2) (1 / 2) 1)
      = (1 / 2 - 1, 1 / 2) := by
  refine ⟨by norm_num, ?_⟩
  exact invert_shunt_roundtrip 1 2 (1 / 2) (1 / 2) 1 (by norm_num) (by norm_num) (by norm_num)

/- ---------- C5 : min / max tie-break policy ---------- -/

/-- C5: on every input whose coefficients reach the repeated-root case
(delta = 0, delta0 ≠ 0) or the three-distinct-real-roots case (delta > 0),
kerr_detuning with choose = np.min and with choose = np.max returns two
different real roots of the cubic, with the min result less than or equal to
the max result. -/
theorem choose_min_max_distinct_ordered_roots
    (detuning coupling_loss internal_loss KXin : ℝ)
    (hcase : (disc (cubicB detuning) (cubicC coupling_loss internal_loss detuning)
        (cubicD coupling_loss KXin) = 0 ∧
        delta0 (cubicB detuning) (cubicC coupling_loss internal_loss detuning) ≠ 0) ∨
      0 < disc (cubicB detuning) (cubicC coupling_loss internal_loss detuning)
        (cubicD coupling_loss KXin)) :
    kerrDetuningPoint chooseMin detuning coupling_loss internal_loss KXin
      ≤ kerrDetuningPoint chooseMax detuning coupling_loss internal_loss KXin ∧
    kerrDetuningPoint chooseMin detuning coupling_loss internal_loss KXin
      ≠ kerrDetuningPoint chooseMax detuning coupling_loss internal_loss KXin ∧
    cubicEval (cubicB detuning) (cubicC coupling_loss internal_loss detuning)
      (cubicD coupling_loss KXin)
      (kerrDetuningPoint chooseMin detuning coupling_loss internal_loss KXin) = 0 ∧
    cubicEval (cubicB detuning) (cubicC coupling_loss internal_loss detuning)
      (cubicD coupling_loss KXin)
      (kerrDetuningPoint chooseMax detuning coupling_loss internal_loss KXin) = 0 := by
  rcases hcase with ⟨hΔ, hδ⟩ | hΔ
  · rw [kerrPoint_eq_double chooseMin detuning coupling_loss internal_loss KXin hΔ hδ,
      kerrPoint_eq_double chooseMax detuning coupling_loss internal_loss KXin hΔ hδ,
      chooseMin_pair, chooseMax_pair]
    have hne := doubleRoot_ne_simpleRoot _ _ _ hΔ hδ
    have hminmax : ∀ u v : ℝ, min u v = max u v → u = v := by
      intro u v huv
      have hu : u ≤ max u v := le_max_left u v
      have hv : v ≤ max u v := le_max_right u v
      have hu2 : min u v ≤ u := min_le_left u v
      have hv2 : min u v ≤ v := min_le_right u v
      rw [huv] at hu2 hv2
      exact le_antisymm (le_trans hu hv2) (le_trans hv hu2)
    refine ⟨min_le_max, fun h => hne (hminmax _ _ h), ?_, ?_⟩
    · rcases min_cases (doubleRoot (cubicB detuning)
        (cubicC coupling_loss internal_loss detuning) (cubicD coupling_loss KXin))
        (simpleRoot (cubicB detuning) (cubicC coupling_loss internal_loss detuning)
          (cubicD coupling_loss KXin)) with ⟨hmin, _⟩ | ⟨hmin, _⟩
      · rw [hmin]
        exact doubleRoot_isRoot _ _ _ hΔ hδ
      · rw [hmin]
        exact simpleRoot_isRoot _ _ _ hΔ hδ
    · rcases max_cases (doubleRoot (cubicB detuning)
        (cubicC coupling_loss internal_loss detuning) (cubicD coupling_loss KXin))
        (simpleRoot (cubicB detuning) (cubicC coupling_loss internal_loss detuning)
          (cubicD coupling_loss KXin)) with ⟨hmax, _⟩ | ⟨hmax, _⟩
      · rw [hmax]
        exact doubleRoot_isRoot _ _ _ hΔ hδ
      · rw [hmax]
        exact simpleRoot_isRoot _ _ _ hΔ hδ
  · have hnum := disc_pos_numerator _ _ _ hΔ
    have hdist := threeRootAux_distinct _ _ _ hnum
    rw [kerrPoint_eq_three chooseMin detuning coupling_loss internal_loss KXin hΔ,
      kerrPoint_eq_three chooseMax detuning coupling_loss internal_loss KXin hΔ,
      chooseMin_triple, chooseMax_triple, threeRoot0_eq_aux, threeRoot1_eq_aux,
      threeRoot2_eq_aux]
    set t0 := threeRootAux 0 (cubicB detuning) (cubicC coupling_loss internal_loss detuning)
      (cubicD coupling_loss KXin) with ht0
    set t1 := threeRootAux 1 (cubicB detuning) (cubicC coupling_loss internal_loss detuning)
      (cubicD coupling_loss KXin) with ht1
    set t2 := threeRootAux 2 (cubicB detuning) (cubicC coupling_loss internal_loss detuning)
      (cubicD coupling_loss KXin) with ht2
    have hle : min t0 (min t1 t2) ≤ max t0 (max t1 t2) :=
      le_trans (min_le_left _ _) (le_max_left _ _)
    refine ⟨hle, ?_, ?_, ?_⟩
    · intro h
      have h0le : t0 ≤ min t0 (min t1 t2) := h ▸ le_max_left _ _
      have h0eq : t0 = min t0 (min t1 t2) := le_antisymm h0le (min_le_left _ _)
      have h1ge : min t0 (min t1 t2) ≤ t1 := le_trans (min_le_right _ _) (min_le_left _ _)
      have h1le : t1 ≤ min t0 (min t1 t2) :=
        h ▸ le_trans (le_max_left _ _) (le_max_right _ _)
      have h1eq : t1 = min t0 (min t1 t2) := le_antisymm h1le h1ge
      exact hdist.1 (h0eq.trans h1eq.symm)
    · rcases min_cases t0 (min t1 t2) with ⟨hmin, _⟩ | ⟨hmin, _⟩
      · rw [hmin]
        exact threeRootAux_isRoot _ _ _ hnum 0
      · rcases min_cases t1 t2 with ⟨hmin2, _⟩ | ⟨hmin2, _⟩
        · rw [hmin, hmin2]
          exact threeRootAux_isRoot _ _ _ hnum 1
        · rw [hmin, hmin2]
          exact threeRootAux_isRoot _ _ _ hnum 2
    · rcases max_cases t0 (max t1 t2) with ⟨hmax, _⟩ | ⟨hmax, _⟩
      · rw [hmax]
        exact threeRootAux_isRoot _ _ _ hnum 0
      · rcases max_cases t1 t2 with ⟨hmax2, _⟩ | ⟨hmax2, _⟩
        · rw [hmax, hmax2]
          exact threeRootAux_isRoot _ _ _ hnum 1
        · rw [hmax, hmax2]
          exact threeRootAux_isRoot _ _ _ hnum 2

/-- Witness for C5 at detuning = 10, coupling_loss = internal_loss = 1/2,
KXin = 4090/27, a delta > 0 (three distinct real roots) point. -/
theorem choose_min_max_distinct_ordered_roots_witness :
    0 < disc (cubicB 10) (cubicC (1 / 2) (1 / 2) 10) (cubicD (1 / 2) (4090 / 27)) ∧
    kerrDetuningPoint chooseMin 10 (1 / 2) (1 / 2) (4090 / 27)
      ≤ kerrDetuningPoint chooseMax 10 (1 / 2) (1 / 2) (4090 / 27) ∧
    kerrDetuningPoint chooseMin 10 (1 / 2) (1 / 2) (4090 / 27)
      ≠ kerrDetuningPoint chooseMax 10 (1 / 2) (1 / 2) (4090 / 27) := by
  have hΔ : 0 < disc (cubicB 10) (cubicC (1 / 2) (1 / 2) 10) (cubicD (1 / 2) (4090 / 27)) := by
    norm_num [disc, delta0, delta1, cubicB, cubicC, cubicD]
  have h := choose_min_max_distinct_ordered_roots 10 (1 / 2) (1 / 2) (4090 / 27) (Or.inr hΔ)
  exact ⟨hΔ, h.1, h.2.1⟩

/- ---------- C6 : the on-resonance dip of the linear model ---------- -/

/-- C6: with coupling_loss = 0.01, internal_loss = 0.001, resonance_frequency
= 5e9 and asymmetry = 0, the linear shunt model at frequency =
resonance_frequency equals 1 - coupling_loss / (internal_loss + coupling_loss)
exactly. -/
theorem shunt_on_resonance_dip :
    shunt 5000000000 5000000000 (1 / 1000) (1 / 100) 0
      = 1 - (1 / 100) / (1 / 1000 + 1 / 100) := by
  unfold shunt
  push_cast
  norm_num

/- ---------- C7 : shape contract of kerr_detuning ---------- -/

/-- C7: a one-dimensional input of length n yields a one-dimensional output of
length n aligned with the input ordering; a scalar input yields a scalar
(shape ()); a zero-dimensional array input yields an output with the same
shape () as the input. -/
theorem kerr_detuning_shape_contract (choose : List ℝ → ℝ)
    (coupling_loss internal_loss KXin : ℝ) :
    (∀ xs : List ℝ,
      npShape (kerr_detuning choose (NpArray.onedim xs) coupling_loss internal_loss KXin).1
        = [xs.length]) ∧
    (∀ x : ℝ,
      npShape (kerr_detuning choose (NpArray.scalar x) coupling_loss internal_loss KXin).1
        = []) ∧
    (∀ x : ℝ,
      npShape (kerr_detuning choose (NpArray.zerodim x) coupling_loss internal_loss KXin).1
        = npShape (NpArray.zerodim x)) := by
  refine ⟨fun xs => ?_, fun x => rfl, fun x => rfl⟩
  simp [kerr_detuning, npShape]

/- ---------- C9 : the nonlinear inversion path ---------- -/

/-- C9 (code evaluation): ShuntNonlinearFitter.invert is a bare pass, so for
every input it silently returns None (modelled as Option.none) instead of
raising a "not implemented" error as the specification requires. -/
theorem shunt_nonlinear_fitter_invert_returns_none (scattering_data : ℂ) :
    ShuntNonlinearFitter.invert scattering_data = none := rfl

/- ---------- C10 : frame effect on the detuning argument ---------- -/

/-- C10: kerr_detuning reassigns the shape of a zero-dimensional detuning
array in place, so after the call the caller's array is one-dimensional of
length 1; scalar and one-dimensional arguments are left unchanged. -/
theorem kerr_detuning_zerodim_mutates_argument (choose : List ℝ → ℝ)
    (coupling_loss internal_loss KXin : ℝ) :
    (∀ x : ℝ,
      (kerr_detuning choose (NpArray.zerodim x) coupling_loss internal_loss KXin).2
        = NpArray.onedim [x]) ∧
    (∀ x : ℝ,
      (kerr_detuning choose (NpArray.scalar x) coupling_loss internal_loss KXin).2
        = NpArray.scalar x) ∧
    (∀ xs : List ℝ,
      (kerr_detuning choose (NpArray.onedim xs) coupling_loss internal_loss KXin).2
        = NpArray.onedim xs) :=
  ⟨fun x => rfl, fun x => rfl, fun xs => rfl⟩

/- ---------- C8 : guess_smooth splitting identities ---------- -/

lemma split_identities_algebra (ipc r : ℝ) (h1r : 1 + r ≠ 0) (hipc : ipc ≠ 0) :
    ipc / (1 + r) + ipc * r / (1 + r) = ipc ∧
    ipc * r / (1 + r) / (ipc / (1 + r)) = r := by
  constructor
  · field_simp
    ring
  · rw [div_div_div_cancel_right₀]
    · exact mul_div_cancel_left₀ r hipc
    · exact h1r

/-- C8 (amended): whenever np.min(np.abs(data)) is nonzero and the derived
combined loss linewidth / resonance_frequency is nonzero, guess_smooth returns
resonance_frequency = frequency[argmin |data|], losses summing to
linewidth / resonance_frequency, and loss ratio internal/coupling equal to
1 / (1 / min|data| - 1). -/
theorem guess_smooth_split_identities (frequency : List ℝ) (data : List ℂ)
    (hm : npMin (absData data) ≠ 0)
    (hipc : guessLinewidth frequency data / guessResonance frequency data ≠ 0) :
    (guess_smooth frequency data).1 = guessResonance frequency data ∧
    (guess_smooth frequency data).2.1 + (guess_smooth frequency data).2.2
      = guessLinewidth frequency data / guessResonance frequency data ∧
    (guess_smooth frequency data).2.2 / (guess_smooth frequency data).2.1
      = 1 / (1 / npMin (absData data) - 1) := by
  have hr : 1 + 1 / (1 / npMin (absData data) - 1) ≠ 0 := by
    by_cases hq : 1 / npMin (absData data) - 1 = 0
    · rw [hq, div_zero]
      norm_num
    · intro h0
      have hr1 : 1 / (1 / npMin (absData data) - 1) = -1 := by linarith
      rw [div_eq_iff hq] at hr1
      have h2 : 1 / npMin (absData data) = 0 := by linarith
      rw [div_eq_zero_iff] at h2
      rcases h2 with h | h
      · norm_num at h
      · exact hm h
  have halg := split_identities_algebra
    (guessLinewidth frequency data / guessResonance frequency data)
    (1 / (1 / npMin (absData data) - 1)) hr hipc
  exact ⟨rfl, halg.1, halg.2⟩

/- Concrete evaluations of the guess_smooth pipeline on ten-point inputs
(width = 1, so the normalized gaussian kernel is [1] and smoothing is the
identity). -/

lemma absData_dip : absData ([1, 1 / 2, 1, 1, 1, 1, 1, 1, 1, 1] : List ℂ)
    = [1, 1 / 2, 1, 1, 1, 1, 1, 1, 1, 1] := by
  norm_num [absData, map_div₀, map_one, Complex.abs_ofNat]

lemma gaussian_ten : guessGaussian ([1, 2, 3, 4, 5, 6, 7, 8, 9, 10] : List ℝ) = [1] := by
  norm_num [guessGaussian, linspace, div_self, Real.exp_ne_zero]

lemma resonance_dip : guessResonance [1, 2, 3, 4, 5, 6, 7, 8, 9, 10]
    ([1, 1 / 2, 1, 1, 1, 1, 1, 1, 1, 1] : List ℂ) = 2 := by
  unfold guessResonance
  rw [absData_dip]
  norm_num [npArgmin, npArgminAux, List.getD]

lemma linewidth_dip : guessLinewidth [1, 2, 3, 4, 5, 6, 7, 8, 9, 10]
    ([1, 1 / 2, 1, 1, 1, 1, 1, 1, 1, 1] : List ℂ) = 1 := by
  have hsm : npConvolveSame (guessGaussian ([1, 2, 3, 4, 5, 6, 7, 8, 9, 10] : List ℝ))
      (absData ([1, 1 / 2, 1, 1, 1, 1, 1, 1, 1, 1] : List ℂ))
      = [1, 1 / 2, 1, 1, 1, 1, 1, 1, 1, 1] := by
    rw [absData_dip, gaussian_ten]
    norm_num [npConvolveSame, npConvolveFull, List.range_succ, Finset.sum_range_succ, List.getD]
  have hder : npConvolveSame [1, -1] ([1, 1 / 2, 1, 1, 1, 1, 1, 1, 1, 1] : List ℝ)
      = [1, -(1 / 2), 1 / 2, 0, 0, 0, 0, 0, 0, 0] := by
    norm_num [npConvolveSame, npConvolveFull, List.range_succ, Finset.sum_range_succ, List.getD]
  simp only [guessLinewidth]
  rw [hsm, hder]
  norm_num [npArgmax, npArgmaxAux, npArgmin, npArgminAux, List.getD]

lemma npMin_dip : npMin (absData ([1, 1 / 2, 1, 1, 1, 1, 1, 1, 1, 1] : List ℂ)) = 1 / 2 := by
  rw [absData_dip]
  norm_num [npMin, List.foldl, min_def]

/-- Witness for C8 on frequencies 1..10 and a data dip of depth 1/2 at the
second point. -/
theorem guess_smooth_split_identities_witness :
    (npMin (absData ([1, 1 / 2, 1, 1, 1, 1, 1, 1, 1, 1] : List ℂ)) ≠ 0 ∧
     guessLinewidth [1, 2, 3, 4, 5, 6, 7, 8, 9, 10] ([1, 1 / 2, 1, 1, 1, 1, 1, 1, 1, 1] : List ℂ)
       / guessResonance [1, 2, 3, 4, 5, 6, 7, 8, 9, 10]
           ([1, 1 / 2, 1, 1, 1, 1, 1, 1, 1, 1] : List ℂ) ≠ 0) ∧
    (guess_smooth [1, 2, 3, 4, 5, 6, 7, 8, 9, 10] ([1, 1 / 2, 1, 1, 1, 1, 1, 1, 1, 1] : List ℂ)).2.2
      / (guess_smooth [1, 2, 3, 4, 5, 6, 7, 8, 9, 10]
          ([1, 1 / 2, 1, 1, 1, 1, 1, 1, 1, 1] : List ℂ)).2.1
    = 1 / (1 / npMin (absData ([1, 1 / 2, 1, 1, 1, 1, 1, 1, 1, 1] : List ℂ)) - 1) := by
  have hm : npMin (absData ([1, 1 / 2, 1, 1, 1, 1, 1, 1, 1, 1] : List ℂ)) ≠ 0 := by
    rw [npMin_dip]
    norm_num
  have hipc : guessLinewidth [1, 2, 3, 4, 5, 6, 7, 8, 9, 10]
      ([1, 1 / 2, 1, 1, 1, 1, 1, 1, 1, 1] : List ℂ)
      / guessResonance [1, 2, 3, 4, 5, 6, 7, 8, 9, 10]
          ([1, 1 / 2, 1, 1, 1, 1, 1, 1, 1, 1] : List ℂ) ≠ 0 := by
    rw [linewidth_dip, resonance_dip]
    norm_num
  exact ⟨⟨hm, hipc⟩,
    (guess_smooth_split_identities [1, 2, 3, 4, 5, 6, 7, 8, 9, 10]
      ([1, 1 / 2, 1, 1, 1, 1, 1, 1, 1, 1] : List ℂ) hm hipc).2.2⟩

/- Evaluations on constant data: the estimated linewidth is 0. -/

lemma absData_const : absData ([1 / 2, 1 / 2, 1 / 2, 1 / 2, 1 / 2, 1 / 2, 1 / 2, 1 / 2,
    1 / 2, 1 / 2] : List ℂ)
    = [1 / 2, 1 / 2, 1 / 2, 1 / 2, 1 / 2, 1 / 2, 1 / 2, 1 / 2, 1 / 2, 1 / 2] := by
  norm_num [absData, map_div₀, map_one, Complex.abs_ofNat]

lemma linewidth_const : guessLinewidth [1, 2, 3, 4, 5, 6, 7, 8, 9, 10]
    ([1 / 2, 1 / 2, 1 / 2, 1 / 2, 1 / 2, 1 / 2, 1 / 2, 1 / 2, 1 / 2, 1 / 2] : List ℂ) = 0 := by
  have hsm : npConvolveSame (guessGaussian ([1, 2, 3, 4, 5, 6, 7, 8, 9, 10] : List ℝ))
      (absData ([1 / 2, 1 / 2, 1 / 2, 1 / 2, 1 / 2, 1 / 2, 1 / 2, 1 / 2, 1 / 2, 1 / 2] : List ℂ))
      = [1 / 2, 1 / 2, 1 / 2, 1 / 2, 1 / 2, 1 / 2, 1 / 2, 1 / 2, 1 / 2, 1 / 2] := by
    rw [absData_const, gaussian_ten]
    norm_num [npConvolveSame, npConvolveFull, List.range_succ, Finset.sum_range_succ, List.getD]
  have hder : npConvolveSame [1, -1]
      ([1 / 2, 1 / 2, 1 / 2, 1 / 2, 1 / 2, 1 / 2, 1 / 2, 1 / 2, 1 / 2, 1 / 2] : List ℝ)
      = [1 / 2, 0, 0, 0, 0, 0, 0, 0, 0, 0] := by
    norm_num [npConvolveSame, npConvolveFull, List.range_succ, Finset.sum_range_succ, List.getD]
  simp only [guessLinewidth]
  rw [hsm, hder]
  norm_num [npArgmax, npArgmaxAux, npArgmin, npArgminAux, List.getD]

lemma npMin_const : npMin (absData ([1 / 2, 1 / 2, 1 / 2, 1 / 2, 1 / 2, 1 / 2, 1 / 2, 1 / 2,
    1 / 2, 1 / 2] : List ℂ)) = 1 / 2 := by
  rw [absData_const]
  norm_num [npMin, List.foldl, min_self]

/-- C8 counterexample: on frequencies 1..10 with constant data 1/2 the
estimated linewidth is 0, so coupling_loss = internal_loss = 0 and the claimed
ratio identity internal_loss / coupling_loss = 1 / (1 / min|data| - 1) fails:
the left side is 0/0 (nan in numpy) while the right side is 1. -/
theorem guess_smooth_ratio_fails_constant_data :
    ¬((guess_smooth [1, 2, 3, 4, 5, 6, 7, 8, 9, 10]
        ([1 / 2, 1 / 2, 1 / 2, 1 / 2, 1 / 2, 1 / 2, 1 / 2, 1 / 2, 1 / 2, 1 / 2] : List ℂ)).1
        = guessResonance [1, 2, 3, 4, 5, 6, 7, 8, 9, 10]
          ([1 / 2, 1 / 2, 1 / 2, 1 / 2, 1 / 2, 1 / 2, 1 / 2, 1 / 2, 1 / 2, 1 / 2] : List ℂ) ∧
      (guess_smooth [1, 2, 3, 4, 5, 6, 7, 8, 9, 10]
        ([1 / 2, 1 / 2, 1 / 2, 1 / 2, 1 / 2, 1 / 2, 1 / 2, 1 / 2, 1 / 2, 1 / 2] : List ℂ)).2.1
        + (guess_smooth [1, 2, 3, 4, 5, 6, 7, 8, 9, 10]
        ([1 / 2, 1 / 2, 1 / 2, 1 / 2, 1 / 2, 1 / 2, 1 / 2, 1 / 2, 1 / 2, 1 / 2] : List ℂ)).2.2
        = guessLinewidth [1, 2, 3, 4, 5, 6, 7, 8, 9, 10]
            ([1 / 2, 1 / 2, 1 / 2, 1 / 2, 1 / 2, 1 / 2, 1 / 2, 1 / 2, 1 / 2, 1 / 2] : List ℂ)
          / guessResonance [1, 2, 3, 4, 5, 6, 7, 8, 9, 10]
            ([1 / 2, 1 / 2, 1 / 2, 1 / 2, 1 / 2, 1 / 2, 1 / 2, 1 / 2, 1 / 2, 1 / 2] : List ℂ) ∧
      (guess_smooth [1, 2, 3, 4, 5, 6, 7, 8, 9, 10]
        ([1 / 2, 1 / 2, 1 / 2, 1 / 2, 1 / 2, 1 / 2, 1 / 2, 1 / 2, 1 / 2, 1 / 2] : List ℂ)).2.2
        / (guess_smooth [1, 2, 3, 4, 5, 6, 7, 8, 9, 10]
        ([1 / 2, 1 / 2, 1 / 2, 1 / 2, 1 / 2, 1 / 2, 1 / 2, 1 / 2, 1 / 2, 1 / 2] : List ℂ)).2.1
        = 1 / (1 / npMin (absData ([1 / 2, 1 / 2, 1 / 2, 1 / 2, 1 / 2, 1 / 2, 1 / 2, 1 / 2,
            1 / 2, 1 / 2] : List ℂ)) - 1)) := by
  intro h
  have h3 := h.2.2
  have e1 : (guess_smooth [1, 2, 3, 4, 5, 6, 7, 8, 9, 10]
      ([1 / 2, 1 / 2, 1 / 2, 1 / 2, 1 / 2, 1 / 2, 1 / 2, 1 / 2, 1 / 2, 1 / 2] : List ℂ)).2.1
      = guessLinewidth [1, 2, 3, 4, 5, 6, 7, 8, 9, 10]
          ([1 / 2, 1 / 2, 1 / 2, 1 / 2, 1 / 2, 1 / 2, 1 / 2, 1 / 2, 1 / 2, 1 / 2] : List ℂ)
        / guessResonance [1, 2, 3, 4, 5, 6, 7, 8, 9, 10]
          ([1 / 2, 1 / 2, 1 / 2, 1 / 2, 1 / 2, 1 / 2, 1 / 2, 1 / 2, 1 / 2, 1 / 2] : List ℂ)
        / (1 + 1 / (1 / npMin (absData ([1 / 2, 1 / 2, 1 / 2, 1 / 2, 1 / 2, 1 / 2, 1 / 2, 1 / 2,
            1 / 2, 1 / 2] : List ℂ)) - 1)) := rfl
  have e2 : (guess_smooth [1, 2, 3, 4, 5, 6, 7, 8, 9, 10]
      ([1 / 2, 1 / 2, 1 / 2, 1 / 2, 1 / 2, 1 / 2, 1 / 2, 1 / 2, 1 / 2, 1 / 2] : List ℂ)).2.2
      = guessLinewidth [1, 2, 3, 4, 5, 6, 7, 8, 9, 10]
          ([1 / 2, 1 / 2, 1 / 2, 1 / 2, 1 / 2, 1 / 2, 1 / 2, 1 / 2, 1 / 2, 1 / 2] : List ℂ)
        / guessResonance [1, 2, 3, 4, 5, 6, 7, 8, 9, 10]
          ([1 / 2, 1 / 2, 1 / 2, 1 / 2, 1 / 2, 1 / 2, 1 / 2, 1 / 2, 1 / 2, 1 / 2] : List ℂ)
        * (1 / (1 / npMin (absData ([1 / 2, 1 / 2, 1 / 2, 1 / 2, 1 / 2, 1 / 2, 1 / 2, 1 / 2,
            1 / 2, 1 / 2] : List ℂ)) - 1))
        / (1 + 1 / (1 / npMin (absData ([1 / 2, 1 / 2, 1 / 2, 1 / 2, 1 / 2, 1 / 2, 1 / 2, 1 / 2,
            1 / 2, 1 / 2] : List ℂ)) - 1)) := rfl
  rw [e1, e2, linewidth_const, npMin_const] at h3
  norm_num at h3
